import Mathlib

/-! # Keyboard teleoperation interpreter

A shallow embedding of `src/teleop_twist_keyboard.cpp`: the two binding tables,
the global command state, the body of the `while(true)` loop of `main` and the
loop itself, followed by the properties established about them.

Numbers.  The program computes with the C++ type `float`.  The embedding is
parametric in the arithmetic: a `FloatArith F` supplies the conversion of a
numeric constant of the source to `F` and the product of two `F` values, so
every statement made for an arbitrary `A : FloatArith F` holds whatever the
rounding behaviour of the machine type is.  Two instances are given:
`binary32`, the IEEE 754 single-precision arithmetic with rounding to nearest
(ties to even), subnormal numbers, infinities and NaN, which is the `float` of
the program's platform, and `exactArith`, exact rational arithmetic.
Statements that depend on the value of a product are made for the instance
they name.

Keys.  A key is a `Char`; the C++ `char` values are among them.  The input of
the loop is the list of keys that successive calls of `getch` deliver.

Terminal.  `getch` is embedded over an explicit terminal: the mode in effect
(a `Termios`) and the results the coming calls of `getchar` will give.  The
calls `tcgetattr` and `tcsetattr` are taken to succeed, as the program takes
them.  `mainLoopTty` is the loop reading its keys through `getch`; it has no
exit but `break`, so it is run for a bounded number of cycles.
-/

namespace Teleop

/-! ## Arithmetic -/

/-- The two operations of the `float` type the program uses: `lit q` is the
value a numeric constant of exact value `q` takes once stored in a `float`,
`mul a b` is the `float` product `a * b`. -/
structure FloatArith (F : Type) where
  lit : ℚ → F
  mul : F → F → F

/-- Exact arithmetic: constants keep their value and products are exact. -/
def exactArith : FloatArith ℚ where
  lit := fun q => q
  mul := fun a b => a * b

/-! ## Binding tables (lines 19-51) -/

/-- A `std::map<char, std::vector<float>>` built from an initialiser list: the
entries in order of appearance. -/
abbrev Bindings (F : Type) := List (Char × List F)

/-- `m.count(key)` of `std::map`: 1 when the key is present, 0 otherwise. -/
def Bindings.count {F : Type} (m : Bindings F) (key : Char) : Nat :=
  if (List.lookup key m).isSome then 1 else 0

/-- `m[key]` of `std::map`, read-only: the vector stored under `key` (the empty
vector that `operator[]` would create for an absent key). -/
def Bindings.get {F : Type} (m : Bindings F) (key : Char) : List F :=
  (List.lookup key m).getD []

/-- `v[i]` of `std::vector<float>`.  Every use in the program is in range; an
index out of range (undefined in C++) reads as the constant 0 here. -/
def vecAt {F : Type} (A : FloatArith F) (v : List F) (i : Nat) : F :=
  v.getD i (A.lit 0)

/-- `moveBindings` (lines 20-41). -/
def moveBindings {F : Type} (A : FloatArith F) : Bindings F :=
  [ ('i', [A.lit 1, A.lit 0, A.lit 0, A.lit 0]),
    ('o', [A.lit 1, A.lit 0, A.lit 0, A.lit (-1)]),
    ('j', [A.lit 0, A.lit 0, A.lit 0, A.lit 1]),
    ('l', [A.lit 0, A.lit 0, A.lit 0, A.lit (-1)]),
    ('u', [A.lit 1, A.lit 0, A.lit 0, A.lit 1]),
    (',', [A.lit (-1), A.lit 0, A.lit 0, A.lit 0]),
    ('.', [A.lit (-1), A.lit 0, A.lit 0, A.lit 1]),
    ('m', [A.lit (-1), A.lit 0, A.lit 0, A.lit (-1)]),
    ('O', [A.lit 1, A.lit (-1), A.lit 0, A.lit 0]),
    ('I', [A.lit 1, A.lit 0, A.lit 0, A.lit 0]),
    ('J', [A.lit 0, A.lit 1, A.lit 0, A.lit 0]),
    ('L', [A.lit 0, A.lit (-1), A.lit 0, A.lit 0]),
    ('U', [A.lit 1, A.lit 1, A.lit 0, A.lit 0]),
    ('<', [A.lit (-1), A.lit 0, A.lit 0, A.lit 0]),
    ('>', [A.lit (-1), A.lit (-1), A.lit 0, A.lit 0]),
    ('M', [A.lit (-1), A.lit 1, A.lit 0, A.lit 0]),
    ('t', [A.lit 0, A.lit 0, A.lit 1, A.lit 0]),
    ('b', [A.lit 0, A.lit 0, A.lit (-1), A.lit 0]),
    ('k', [A.lit 0, A.lit 0, A.lit 0, A.lit 0]),
    ('K', [A.lit 0, A.lit 0, A.lit 0, A.lit 0]) ]

/-- `speedBindings` (lines 44-51). -/
def speedBindings {F : Type} (A : FloatArith F) : Bindings F :=
  [ ('q', [A.lit (11/10), A.lit (11/10)]),
    ('z', [A.lit (9/10), A.lit (9/10)]),
    ('w', [A.lit (11/10), A.lit 1]),
    ('x', [A.lit (9/10), A.lit 1]),
    ('e', [A.lit 1, A.lit (11/10)]),
    ('c', [A.lit 1, A.lit (9/10)]) ]

/-! ## State and observable effects -/

/-- The mutable globals the loop reads and writes: `relayState` (line 17),
`speed`, `turn` (lines 83-84) and `x`, `y`, `z`, `th` (line 85).  The global
`key` is overwritten by `getch` at the top of every cycle before it is read, so
it is the input of a cycle and not part of the state. -/
structure State (F : Type) where
  relayState : Bool
  speed : F
  turn : F
  x : F
  y : F
  z : F
  th : F

/-- The values the globals are initialised with (lines 17, 83-85). -/
def initState {F : Type} (A : FloatArith F) : State F where
  relayState := false
  speed := A.lit (1/2)
  turn := A.lit 1
  x := A.lit 0
  y := A.lit 0
  z := A.lit 0
  th := A.lit 0

/-- The three components of a `geometry_msgs::Vector3`. -/
structure Vector3 (F : Type) where
  x : F
  y : F
  z : F

/-- A `geometry_msgs::Twist`.  Its fields are `double`; a `float` converts to
`double` without rounding, so they are kept in `F`. -/
structure Twist (F : Type) where
  linear : Vector3 F
  angular : Vector3 F

/-- What one cycle can write to the outside: the three `printf` calls of the
loop and the three publishers. -/
inductive Output (F : Type) where
  /-- The `printf` of lines 150 and 159, "... | Last command: %c". -/
  | printLast (speed turn : F) (key : Char)
  /-- The `printf` of line 199, "... | Invalid command! %c". -/
  | printInvalid (speed turn : F) (key : Char)
  /-- The `printf` of line 195, "shutting down ROS node". -/
  | printShutdown
  /-- A `std_msgs::Bool` published on `/motor_relay` (lines 168, 178). -/
  | relayPub (data : Bool)
  /-- A `std_msgs::String` published to espeak (lines 172, 182). -/
  | espeakPub (data : String)
  /-- The `geometry_msgs::Twist` published on the command topic (line 212). -/
  | twistPub (twist : Twist F)

/-- The outcome of one cycle: the globals afterwards, what was written, and
whether the loop goes on (`false` after `break`). -/
structure Step (F : Type) where
  state : State F
  outputs : List (Output F)
  running : Bool

/-! ## The loop body (lines 142-213) -/

/-- The quit sentinel compared against in line 194 (the byte 0x03, Ctrl-C). -/
def quitKey : Char := Char.ofNat 3

/-- The `if / else if / else if / else` chain over the key (lines 143-200). -/
def keyBranch {F : Type} (A : FloatArith F) (s : State F) (key : Char) : Step F :=
  if (moveBindings A).count key = 1 then
    let s1 : State F :=
      { s with
        x := vecAt A ((moveBindings A).get key) 0
        y := vecAt A ((moveBindings A).get key) 1
        z := vecAt A ((moveBindings A).get key) 2
        th := vecAt A ((moveBindings A).get key) 3 }
    ⟨s1, [Output.printLast s1.speed s1.turn key], true⟩
  else if (speedBindings A).count key = 1 then
    let s1 : State F :=
      { s with speed := A.mul s.speed (vecAt A ((speedBindings A).get key) 0) }
    let s2 : State F :=
      { s1 with turn := A.mul s1.turn (vecAt A ((speedBindings A).get key) 1) }
    ⟨s2, [Output.printLast s2.speed s2.turn key], true⟩
  else if key = 'r' then
    if s.relayState = false then
      ⟨{ s with relayState := true },
        [Output.relayPub true, Output.espeakPub "motors engaged"], true⟩
    else if s.relayState = true then
      ⟨{ s with relayState := false },
        [Output.relayPub false, Output.espeakPub "motors disengaged"], true⟩
    else
      ⟨s, [], true⟩
  else
    let s1 : State F := { s with x := A.lit 0, y := A.lit 0, z := A.lit 0, th := A.lit 0 }
    if key = quitKey then
      ⟨s1, [Output.printShutdown], false⟩
    else
      ⟨s1, [Output.printInvalid s1.speed s1.turn key], true⟩

/-- The Twist message filled in lines 203-209 from the globals.  All six
fields are assigned in every cycle that reaches line 212, so the message does
not depend on its previous content. -/
def twistOf {F : Type} (A : FloatArith F) (s : State F) : Twist F where
  linear := ⟨A.mul s.x s.speed, A.mul s.y s.speed, A.mul s.z s.speed⟩
  angular := ⟨A.lit 0, A.lit 0, A.mul s.th s.turn⟩

/-- One pass through the loop body after `key = getch()`: the key chain, then,
unless it left the loop by `break`, the update and publication of the Twist
message (lines 203-213; `ros::spinOnce` has no callback to run). -/
def loopBody {F : Type} (A : FloatArith F) (s : State F) (key : Char) : Step F :=
  let b := keyBranch A s key
  if b.running then
    ⟨b.state, b.outputs ++ [Output.twistPub (twistOf A b.state)], true⟩
  else
    b

/-! ## The loop (lines 137-215) -/

/-- The result of running the loop on a finite supply of keys. -/
structure Run (F : Type) where
  /-- The globals when the run stops. -/
  final : State F
  /-- Everything written, in order. -/
  outputs : List (Output F)
  /-- The keys supplied but never read. -/
  unread : List Char
  /-- It is `some 0` when the loop was left by `break` and `main` returned 0
  (line 215), `none` when the loop is waiting in `getch` for a further key. -/
  exitCode : Option Int

/-- The loop `while(true)` fed with the keys that `getch` returns, in order. -/
def mainLoop {F : Type} (A : FloatArith F) : State F → List Char → Run F
  | s, [] => ⟨s, [], [], none⟩
  | s, key :: rest =>
    let b := loopBody A s key
    if b.running then
      let r := mainLoop A b.state rest
      ⟨r.final, b.outputs ++ r.outputs, r.unread, r.exitCode⟩
    else
      ⟨b.state, b.outputs, rest, some 0⟩

/-- The velocity commands among a list of outputs, in order. -/
def twistsOf {F : Type} : List (Output F) → List (Twist F)
  | [] => []
  | Output.twistPub t :: os => t :: twistsOf os
  | _ :: os => twistsOf os

/-- The booleans published on the relay channel among a list of outputs. -/
def relaysOf {F : Type} : List (Output F) → List Bool
  | [] => []
  | Output.relayPub b :: os => b :: relaysOf os
  | _ :: os => relaysOf os

/-- The texts published on the announcement channel among a list of outputs. -/
def espeaksOf {F : Type} : List (Output F) → List String
  | [] => []
  | Output.espeakPub t :: os => t :: espeaksOf os
  | _ :: os => espeaksOf os

/-- The globals after each of the given keys in turn, every key processed by
the loop body from the state its predecessor left. -/
def statesAfter {F : Type} (A : FloatArith F) : State F → List Char → List (State F)
  | _, [] => []
  | s, key :: rest => (loopBody A s key).state :: statesAfter A (loopBody A s key).state rest

/-- The relay states that result from `n` successive presses of the relay key
when the relay state is `b` before the first press. -/
def toggles : Bool → Nat → List Bool
  | _, 0 => []
  | b, n + 1 => (!b) :: toggles (!b) n

/-- The text announced for a relay state (lines 171, 181). -/
def announcement (b : Bool) : String :=
  if b then "motors engaged" else "motors disengaged"

/-! ## Keyboard input: `getch` (lines 89-114) -/

/-- The constants of `<termios.h>` that `getch` names.  The header belongs to
the platform, not to the program, so the masks and indices are parameters. -/
structure TermiosConsts where
  ICANON : Nat
  ECHO : Nat
  ECHOK : Nat
  ECHOE : Nat
  ECHONL : Nat
  ISIG : Nat
  IEXTEN : Nat
  IGNBRK : Nat
  INLCR : Nat
  ICRNL : Nat
  IXON : Nat
  IXOFF : Nat
  VMIN : Nat
  VTIME : Nat

/-- The values the constants have in the Linux headers (octal in the header). -/
def linuxConsts : TermiosConsts where
  ICANON := 2
  ECHO := 8
  ECHOK := 32
  ECHOE := 16
  ECHONL := 64
  ISIG := 1
  IEXTEN := 32768
  IGNBRK := 1
  INLCR := 64
  ICRNL := 256
  IXON := 1024
  IXOFF := 4096
  VMIN := 6
  VTIME := 5

/-- The fields of `struct termios` that a terminal mode consists of: the four
flag words (`tcflag_t`, 32 bits) and the control characters `c_cc`. -/
structure Termios where
  c_iflag : Nat
  c_oflag : Nat
  c_cflag : Nat
  c_lflag : Nat
  c_cc : List Nat

/-- The controlling terminal: the mode in effect and what the coming calls of
`getchar` will return, in order (a byte 0..255, or `EOF`); once the list is
used up every further call returns `EOF`. -/
structure Tty where
  attrs : Termios
  input : List Int

/-- The value `EOF` of `<stdio.h>`. -/
def EOF : Int := -1

/-- A mode as a Linux terminal has it by default (canonical input with echo,
`c_cc` with its 32 entries), used where a concrete terminal is needed. -/
def cookedMode : Termios where
  c_iflag := 1280
  c_oflag := 5
  c_cflag := 191
  c_lflag := 35387
  c_cc := [3, 28, 127, 21, 4, 0, 1, 0, 17, 19, 26, 0, 18, 15, 23, 22,
    0, 0, 0, 0, 0, 0, 0, 0, 0, 0, 0, 0, 0, 0, 0, 0]

/-- `flags & ~mask` on a 32-bit `tcflag_t`. -/
def clearBits (flags mask : Nat) : Nat :=
  flags &&& (4294967295 ^^^ mask)

/-- `tcgetattr(STDIN_FILENO, &t)`: the mode in effect. -/
def tcgetattr (tty : Tty) : Termios := tty.attrs

/-- `tcsetattr(fd, TCSANOW, &t)`: the mode `t` takes effect at once.  The
program ignores the return value; the call is taken to succeed. -/
def tcsetattr (tty : Tty) (t : Termios) : Tty := { tty with attrs := t }

/-- `getchar()`: the next result of the input, `EOF` when there is none. -/
def getchar (tty : Tty) : Int × Tty :=
  match tty.input with
  | [] => (EOF, tty)
  | c :: rest => (c, { tty with input := rest })

/-- The mode `newt` that lines 96-104 derive from the saved mode `oldt`. -/
def rawMode (K : TermiosConsts) (oldt : Termios) : Termios :=
  let newt := oldt
  let newt := { newt with c_lflag := clearBits newt.c_lflag (K.ICANON ||| K.ECHO) }
  let newt := { newt with c_iflag := newt.c_iflag ||| K.IGNBRK }
  let newt := { newt with
    c_iflag := clearBits newt.c_iflag (K.INLCR ||| K.ICRNL ||| K.IXON ||| K.IXOFF) }
  let newt := { newt with
    c_lflag := clearBits newt.c_lflag
      (K.ICANON ||| K.ECHO ||| K.ECHOK ||| K.ECHOE ||| K.ECHONL ||| K.ISIG ||| K.IEXTEN) }
  let newt := { newt with c_cc := newt.c_cc.set K.VMIN 1 }
  let newt := { newt with c_cc := newt.c_cc.set K.VTIME 0 }
  newt

/-- `getch` (lines 89-114): save the mode, switch to the raw mode, read one
character, put the saved mode back, return what `getchar` returned. -/
def getch (K : TermiosConsts) (tty : Tty) : Int × Tty :=
  let oldt := tcgetattr tty
  let newt := rawMode K oldt
  let tty1 := tcsetattr tty newt
  let r := getchar tty1
  let tty2 := tcsetattr r.2 oldt
  (r.1, tty2)

/-- The terminal as it is while `getch` waits in `getchar` (after line 105). -/
def ttyDuringRead (K : TermiosConsts) (tty : Tty) : Tty :=
  tcsetattr tty (rawMode K (tcgetattr tty))

/-- The conversion of `key = getch()` (line 140) from `int` to `char`: the low
eight bits of the value. -/
def charOfInt (i : Int) : Char := Char.ofNat (i % 256).toNat

/-! ## The loop reading through `getch`, and `main` -/

/-- The result of running the loop on a terminal for a bounded number of
cycles. -/
structure Session (F : Type) where
  /-- The globals when the run stops. -/
  final : State F
  /-- Everything written, in order. -/
  outputs : List (Output F)
  /-- It is `some 0` when the loop was left by `break` and `main` returned 0,
  `none` when the cycles allowed were used up with the loop still running. -/
  exitCode : Option Int
  /-- The terminal when the run stops. -/
  tty : Tty

/-- The loop of lines 137-214 with `key = getch()` at the top of each cycle.
The loop has no exit but `break`, so the number of cycles is bounded by the
first argument. -/
def mainLoopTty {F : Type} (K : TermiosConsts) (A : FloatArith F) :
    Nat → State F → Tty → Session F
  | 0, s, tty => ⟨s, [], none, tty⟩
  | n + 1, s, tty =>
    let r := getch K tty
    let b := loopBody A s (charOfInt r.1)
    if b.running then
      let rest := mainLoopTty K A n b.state r.2
      ⟨rest.final, b.outputs ++ rest.outputs, rest.exitCode, rest.tty⟩
    else
      ⟨b.state, b.outputs, some 0, r.2⟩

/-- What `main` prints before the loop (lines 134-135): the help text and the
"Awaiting command" line with the two speeds. -/
inductive Startup (F : Type) where
  | help
  | awaiting (speed turn : F)

/-- What `main` did: the start-up lines, then the loop. -/
structure MainRun (F : Type) where
  startup : List (Startup F)
  session : Session F

/-- `main` (lines 116-216) from the initial globals, for at most the given
number of cycles.  The ROS set-up of lines 118-132 creates the three
publishers and has no other effect on what follows. -/
def main {F : Type} (K : TermiosConsts) (A : FloatArith F) (cycles : Nat) (tty : Tty) :
    MainRun F :=
  ⟨[Startup.help, Startup.awaiting (initState A).speed (initState A).turn],
    mainLoopTty K A cycles (initState A) tty⟩

/-! ## Definitions used to state the properties -/

/-- The keys that the first `n` cycles obtain from the terminal: the results
of `n` successive calls of `getch`, each converted to `char`. -/
def keysOf (K : TermiosConsts) : Nat → Tty → List Char
  | 0, _ => []
  | n + 1, tty => charOfInt (getch K tty).1 :: keysOf K n (getch K tty).2


/-- The key chain with the two table tests in the other order: the speed table
first, then the movement table; the other branches as in `keyBranch`. -/
def keyBranchSpeedFirst {F : Type} (A : FloatArith F) (s : State F) (key : Char) : Step F :=
  if (speedBindings A).count key = 1 then
    let s1 : State F :=
      { s with speed := A.mul s.speed (vecAt A ((speedBindings A).get key) 0) }
    let s2 : State F :=
      { s1 with turn := A.mul s1.turn (vecAt A ((speedBindings A).get key) 1) }
    ⟨s2, [Output.printLast s2.speed s2.turn key], true⟩
  else if (moveBindings A).count key = 1 then
    let s1 : State F :=
      { s with
        x := vecAt A ((moveBindings A).get key) 0
        y := vecAt A ((moveBindings A).get key) 1
        z := vecAt A ((moveBindings A).get key) 2
        th := vecAt A ((moveBindings A).get key) 3 }
    ⟨s1, [Output.printLast s1.speed s1.turn key], true⟩
  else if key = 'r' then
    if s.relayState = false then
      ⟨{ s with relayState := true },
        [Output.relayPub true, Output.espeakPub "motors engaged"], true⟩
    else if s.relayState = true then
      ⟨{ s with relayState := false },
        [Output.relayPub false, Output.espeakPub "motors disengaged"], true⟩
    else
      ⟨s, [], true⟩
  else
    let s1 : State F := { s with x := A.lit 0, y := A.lit 0, z := A.lit 0, th := A.lit 0 }
    if key = quitKey then
      ⟨s1, [Output.printShutdown], false⟩
    else
      ⟨s1, [Output.printInvalid s1.speed s1.turn key], true⟩

/-- The first component (forward) of the vector tabled for a movement key. -/
def forwardOf {F : Type} (A : FloatArith F) (key : Char) : F :=
  vecAt A ((moveBindings A).get key) 0

/-- The second component (strafe) of the vector tabled for a movement key. -/
def strafeOf {F : Type} (A : FloatArith F) (key : Char) : F :=
  vecAt A ((moveBindings A).get key) 1

/-- The third component (vertical) of the vector tabled for a movement key. -/
def verticalOf {F : Type} (A : FloatArith F) (key : Char) : F :=
  vecAt A ((moveBindings A).get key) 2

/-- The fourth component (turn) of the vector tabled for a movement key. -/
def turnOf {F : Type} (A : FloatArith F) (key : Char) : F :=
  vecAt A ((moveBindings A).get key) 3

/-! ## The arithmetic of the machine type: IEEE 754 binary32 -/

/-- A value of the C++ type `float` (IEEE 754 binary32): a finite number given
by its sign and its magnitude (the two zeros are `finite false 0` and
`finite true 0`), an infinity, or a NaN. -/
inductive F32 where
  | finite (neg : Bool) (mag : ℚ)
  | inf (neg : Bool)
  | nan

/-- The integer nearest to `r`, the even one of the two when `r` lies half-way
between two integers. -/
def roundHalfEven (r : ℚ) : ℤ :=
  if r - ⌊r⌋ < 1 / 2 then ⌊r⌋
  else if 1 / 2 < r - ⌊r⌋ then ⌊r⌋ + 1
  else if ⌊r⌋ % 2 = 0 then ⌊r⌋
  else ⌊r⌋ + 1

/-- Rounding of the exact magnitude `q ≥ 0` to binary32, to nearest with ties
to even: the spacing of the format around `q` is `2 ^ (e - 23)` for the
exponent `e` of `q`, not below -126 (subnormal range); a result of `2 ^ 128`
or more is an overflow and gives the infinity. -/
def roundMag (neg : Bool) (q : ℚ) : F32 :=
  if q = 0 then F32.finite neg 0
  else if (2 : ℚ) ^ (128 : ℕ)
      ≤ roundHalfEven (q / (2 : ℚ) ^ (max (Int.log 2 q) (-126) - 23))
          * (2 : ℚ) ^ (max (Int.log 2 q) (-126) - 23) then
    F32.inf neg
  else
    F32.finite neg
      (roundHalfEven (q / (2 : ℚ) ^ (max (Int.log 2 q) (-126) - 23))
        * (2 : ℚ) ^ (max (Int.log 2 q) (-126) - 23))

/-- The `float` product: NaN if an operand is NaN or the operands are a zero
and an infinity; otherwise the sign is the exclusive or of the signs and the
magnitude is the exact product rounded, an infinity staying an infinity. -/
def F32.mul : F32 → F32 → F32
  | F32.nan, _ => F32.nan
  | _, F32.nan => F32.nan
  | F32.inf s, F32.inf t => F32.inf (xor s t)
  | F32.inf s, F32.finite t m => if m = 0 then F32.nan else F32.inf (xor s t)
  | F32.finite s m, F32.inf t => if m = 0 then F32.nan else F32.inf (xor s t)
  | F32.finite s m, F32.finite t n => roundMag (xor s t) (m * n)

/-- The comparison `v > 0` on `float`: true of the positive finite values and
of the positive infinity, false of the zeros, the negative values and NaN. -/
def F32.isPositive : F32 → Prop
  | F32.finite neg mag => neg = false ∧ 0 < mag
  | F32.inf neg => neg = false
  | F32.nan => False

/-- The arithmetic of `float` on the program's platform: a constant is rounded
to the nearest binary32 value, a product is the exact product rounded to the
nearest binary32 value.  (The constants 1.1 and 0.9 of the tables are `double`
literals stored into `float`; rounding them through `double` gives the same
binary32 values, 9227469 / 2^23 and 15099494 / 2^24.) -/
def binary32 : FloatArith F32 where
  lit := fun q => roundMag (decide (q < 0)) |q|
  mul := F32.mul

/-- The positive values of binary32: the positive infinity and the finite
positive values, none of which is below `2 ^ (-149)`, the least positive one. -/
def F32.atLeastMin : F32 → Prop
  | F32.finite neg mag => neg = false ∧ (2 : ℚ) ^ (-149 : ℤ) ≤ mag
  | F32.inf neg => neg = false
  | F32.nan => False

/-! ## The scenario `i q r 1 0x03` as the specification lists it -/

/-- The globals after `i`, after `q`, after `r` and after `1` as listed, given
the values `c0`, `c1`, `c05`, `c055`, `c11` that the numbers 0, 1, 0.5, 0.55
and 1.1 have in the arithmetic. -/
def scenarioStates {F : Type} (c0 c1 c05 c055 c11 : F) : List (State F) :=
  [ ⟨false, c05, c1, c1, c0, c0, c0⟩,
    ⟨false, c055, c11, c1, c0, c0, c0⟩,
    ⟨true, c055, c11, c1, c0, c0, c0⟩,
    ⟨true, c055, c11, c0, c0, c0, c0⟩ ]

/-- Everything written during `i q r 1 0x03` as listed: after `i` the command
(0.5,0,0 / 0,0,0), after `q` the command (0.55,0,0 / 0,0,0), after `r` the
relay message, the announcement and the same command, after `1` the command
(0,0,0 / 0,0,0), after 0x03 only the shutdown line. -/
def scenarioOutputs {F : Type} (c0 c1 c05 c055 c11 : F) : List (Output F) :=
  [ Output.printLast c05 c1 'i',
    Output.twistPub ⟨⟨c05, c0, c0⟩, ⟨c0, c0, c0⟩⟩,
    Output.printLast c055 c11 'q',
    Output.twistPub ⟨⟨c055, c0, c0⟩, ⟨c0, c0, c0⟩⟩,
    Output.relayPub true,
    Output.espeakPub "motors engaged",
    Output.twistPub ⟨⟨c055, c0, c0⟩, ⟨c0, c0, c0⟩⟩,
    Output.printInvalid c055 c11 '1',
    Output.twistPub ⟨⟨c0, c0, c0⟩, ⟨c0, c0, c0⟩⟩,
    Output.printShutdown ]

/-! ## Lemmas on the tables -/

theorem lookup_some_mem {β : Type} (k : Char) :
    ∀ (m : List (Char × β)) (v : β), List.lookup k m = some v → (k, v) ∈ m
  | [], _, h => by simp [List.lookup] at h
  | (a, b) :: m, v, h => by
    by_cases hk : k = a
    · subst hk
      simp [List.lookup] at h
      simp [h]
    · have hb : (k == a) = false := by simpa using hk
      simp only [List.lookup, hb] at h
      exact List.mem_cons_of_mem _ (lookup_some_mem k m v h)

theorem count_eq_one_iff {F : Type} (m : Bindings F) (k : Char) :
    m.count k = 1 ↔ ∃ v, List.lookup k m = some v := by
  unfold Bindings.count
  cases h : List.lookup k m <;> simp

theorem count_eq_zero_iff {F : Type} (m : Bindings F) (k : Char) :
    m.count k = 0 ↔ List.lookup k m = none := by
  unfold Bindings.count
  cases h : List.lookup k m <;> simp

theorem count_one_get_mem {F : Type} (m : Bindings F) (k : Char) (h : m.count k = 1) :
    (k, m.get k) ∈ m := by
  obtain ⟨v, hv⟩ := (count_eq_one_iff m k).1 h
  have : m.get k = v := by simp [Bindings.get, hv]
  rw [this]
  exact lookup_some_mem k m v hv

/-- Every vector of `moveBindings` has four components. -/
theorem moveBindings_length {F : Type} (A : FloatArith F) (k : Char)
    (h : (moveBindings A).count k = 1) : ((moveBindings A).get k).length = 4 := by
  have hm := count_one_get_mem _ k h
  generalize (moveBindings A).get k = v at hm
  simp only [moveBindings, List.mem_cons, Prod.mk.injEq, List.mem_singleton,
    List.not_mem_nil, or_false] at hm
  rcases hm with h | h | h | h | h | h | h | h | h | h | h | h | h | h | h | h | h | h | h | h <;>
    simp [h.2]

/-- A key of `speedBindings` is one of its six keys, with the vector listed. -/
theorem speedBindings_cases {F : Type} (A : FloatArith F) (k : Char)
    (h : (speedBindings A).count k = 1) :
    (k = 'q' ∧ (speedBindings A).get k = [A.lit (11/10), A.lit (11/10)]) ∨
    (k = 'z' ∧ (speedBindings A).get k = [A.lit (9/10), A.lit (9/10)]) ∨
    (k = 'w' ∧ (speedBindings A).get k = [A.lit (11/10), A.lit 1]) ∨
    (k = 'x' ∧ (speedBindings A).get k = [A.lit (9/10), A.lit 1]) ∨
    (k = 'e' ∧ (speedBindings A).get k = [A.lit 1, A.lit (11/10)]) ∨
    (k = 'c' ∧ (speedBindings A).get k = [A.lit 1, A.lit (9/10)]) := by
  have hm := count_one_get_mem _ k h
  generalize (speedBindings A).get k = v at hm ⊢
  simpa [speedBindings] using hm

/-- The key sets of the two tables are disjoint. -/
theorem speed_key_not_move {F : Type} (A : FloatArith F) (k : Char)
    (h : (speedBindings A).count k = 1) : (moveBindings A).count k = 0 := by
  rcases speedBindings_cases A k h with h | h | h | h | h | h <;>
    (rw [h.1]; simp [Bindings.count, moveBindings, List.lookup])

/-! ## Lemmas on the loop body -/

theorem keyBranch_move {F : Type} (A : FloatArith F) (s : State F) (k : Char)
    (h : (moveBindings A).count k = 1) :
    keyBranch A s k =
      ⟨{ s with
          x := vecAt A ((moveBindings A).get k) 0
          y := vecAt A ((moveBindings A).get k) 1
          z := vecAt A ((moveBindings A).get k) 2
          th := vecAt A ((moveBindings A).get k) 3 },
        [Output.printLast s.speed s.turn k], true⟩ := by
  simp [keyBranch, h]

theorem keyBranch_speed {F : Type} (A : FloatArith F) (s : State F) (k : Char)
    (h : (speedBindings A).count k = 1) :
    keyBranch A s k =
      ⟨{ s with
          speed := A.mul s.speed (vecAt A ((speedBindings A).get k) 0)
          turn := A.mul s.turn (vecAt A ((speedBindings A).get k) 1) },
        [Output.printLast (A.mul s.speed (vecAt A ((speedBindings A).get k) 0))
          (A.mul s.turn (vecAt A ((speedBindings A).get k) 1)) k], true⟩ := by
  have hm := speed_key_not_move A k h
  simp [keyBranch, h, hm]

theorem moveBindings_count_r {F : Type} (A : FloatArith F) :
    (moveBindings A).count 'r' = 0 := by
  simp [Bindings.count, moveBindings, List.lookup]

theorem speedBindings_count_r {F : Type} (A : FloatArith F) :
    (speedBindings A).count 'r' = 0 := by
  simp [Bindings.count, speedBindings, List.lookup]

theorem moveBindings_count_quit {F : Type} (A : FloatArith F) :
    (moveBindings A).count quitKey = 0 := by
  simp [Bindings.count, moveBindings, List.lookup, quitKey]

theorem speedBindings_count_quit {F : Type} (A : FloatArith F) :
    (speedBindings A).count quitKey = 0 := by
  simp [Bindings.count, speedBindings, List.lookup, quitKey]

theorem keyBranch_relay {F : Type} (A : FloatArith F) (s : State F) :
    keyBranch A s 'r' =
      ⟨{ s with relayState := !s.relayState },
        [Output.relayPub (!s.relayState),
          Output.espeakPub (if s.relayState then "motors disengaged" else "motors engaged")],
        true⟩ := by
  have h1 := moveBindings_count_r A
  have h2 := speedBindings_count_r A
  cases hr : s.relayState <;> simp [keyBranch, h1, h2, hr]

theorem keyBranch_quit {F : Type} (A : FloatArith F) (s : State F) :
    keyBranch A s quitKey =
      ⟨{ s with x := A.lit 0, y := A.lit 0, z := A.lit 0, th := A.lit 0 },
        [Output.printShutdown], false⟩ := by
  have h1 := moveBindings_count_quit A
  have h2 := speedBindings_count_quit A
  have h3 : quitKey ≠ 'r' := by decide
  simp [keyBranch, h1, h2, h3]

theorem keyBranch_other {F : Type} (A : FloatArith F) (s : State F) (k : Char)
    (hm : (moveBindings A).count k = 0) (hs : (speedBindings A).count k = 0)
    (hr : k ≠ 'r') (hq : k ≠ quitKey) :
    keyBranch A s k =
      ⟨{ s with x := A.lit 0, y := A.lit 0, z := A.lit 0, th := A.lit 0 },
        [Output.printInvalid s.speed s.turn k], true⟩ := by
  simp [keyBranch, hm, hs, hr, hq]

theorem loopBody_of_running {F : Type} (A : FloatArith F) (s : State F) (k : Char)
    (h : (keyBranch A s k).running = true) :
    loopBody A s k =
      ⟨(keyBranch A s k).state,
        (keyBranch A s k).outputs ++ [Output.twistPub (twistOf A (keyBranch A s k).state)],
        true⟩ := by
  simp [loopBody, h]

theorem loopBody_quit {F : Type} (A : FloatArith F) (s : State F) :
    loopBody A s quitKey =
      ⟨{ s with x := A.lit 0, y := A.lit 0, z := A.lit 0, th := A.lit 0 },
        [Output.printShutdown], false⟩ := by
  simp [loopBody, keyBranch_quit]

/-! ## Properties of one cycle -/

/-- C1: for every state and every key of the movement table, the cycle
processing that key leaves `(x, y, z, th)` equal to the 4-vector tabled for
the key, and leaves `speed` and `turn` as they were. -/
theorem move_key_sets_intent {F : Type} (A : FloatArith F) (s : State F) (k : Char)
    (h : (moveBindings A).count k = 1) :
    [(loopBody A s k).state.x, (loopBody A s k).state.y,
        (loopBody A s k).state.z, (loopBody A s k).state.th] = (moveBindings A).get k
      ∧ (loopBody A s k).state.speed = s.speed
      ∧ (loopBody A s k).state.turn = s.turn := by
  have hb := keyBranch_move A s k h
  have hl := loopBody_of_running A s k (by rw [hb])
  have hlen := moveBindings_length A k h
  rw [hl, hb]
  refine ⟨?_, rfl, rfl⟩
  generalize (moveBindings A).get k = v at hlen
  match v, hlen with
  | [a, b, c, d], _ => simp [vecAt]

/-- The key `o` is in the movement table with vector `(1, 0, 0, -1)`; pressed in
the initial state it gives that intent and keeps the speeds 0.5 and 1. -/
theorem move_key_sets_intent_witness :
    (moveBindings exactArith).count 'o' = 1
      ∧ (moveBindings exactArith).get 'o' = [1, 0, 0, -1]
      ∧ [(loopBody exactArith (initState exactArith) 'o').state.x,
          (loopBody exactArith (initState exactArith) 'o').state.y,
          (loopBody exactArith (initState exactArith) 'o').state.z,
          (loopBody exactArith (initState exactArith) 'o').state.th]
            = (moveBindings exactArith).get 'o'
      ∧ (loopBody exactArith (initState exactArith) 'o').state.speed = 1 / 2
      ∧ (loopBody exactArith (initState exactArith) 'o').state.turn = 1 :=
  ⟨by simp [Bindings.count, moveBindings, List.lookup],
   by simp [Bindings.get, moveBindings, List.lookup, exactArith],
   move_key_sets_intent exactArith (initState exactArith) 'o'
     (by simp [Bindings.count, moveBindings, List.lookup])⟩

/-- C2: the speed table holds exactly the six keys `q z w x e c` with the
factors (1.1, 1.1), (0.9, 0.9), (1.1, 1), (0.9, 1), (1, 1.1), (1, 0.9); for
every state and every key of the table the cycle multiplies `speed` by the
first tabled factor and `turn` by the second, and leaves `(x, y, z, th)` as
they were. -/
theorem speed_key_scales {F : Type} (A : FloatArith F) (s : State F) (k : Char)
    (h : (speedBindings A).count k = 1) :
    (∃ lf af, (speedBindings A).get k = [lf, af]
        ∧ (loopBody A s k).state.speed = A.mul s.speed lf
        ∧ (loopBody A s k).state.turn = A.mul s.turn af)
      ∧ (loopBody A s k).state.x = s.x
      ∧ (loopBody A s k).state.y = s.y
      ∧ (loopBody A s k).state.z = s.z
      ∧ (loopBody A s k).state.th = s.th
      ∧ (k, (speedBindings A).get k) ∈
          [('q', [A.lit (11/10), A.lit (11/10)]), ('z', [A.lit (9/10), A.lit (9/10)]),
           ('w', [A.lit (11/10), A.lit 1]), ('x', [A.lit (9/10), A.lit 1]),
           ('e', [A.lit 1, A.lit (11/10)]), ('c', [A.lit 1, A.lit (9/10)])]
      ∧ (∀ c, (speedBindings A).count c = 1 ↔ c ∈ ['q', 'z', 'w', 'x', 'e', 'c']) := by
  have hb := keyBranch_speed A s k h
  have hl := loopBody_of_running A s k (by rw [hb])
  have hc := speedBindings_cases A k h
  rw [hl, hb]
  refine ⟨?_, rfl, rfl, rfl, rfl, ?_, ?_⟩
  · rcases hc with h | h | h | h | h | h <;> rw [h.2] <;>
      exact ⟨_, _, rfl, by simp [vecAt], by simp [vecAt]⟩
  · rcases hc with h | h | h | h | h | h <;> rw [h.2, h.1] <;> simp
  · intro c
    constructor
    · intro hcnt
      rcases speedBindings_cases A c hcnt with h | h | h | h | h | h <;> simp [h.1]
    · intro hmem
      simp only [List.mem_cons, List.mem_singleton, List.not_mem_nil, or_false] at hmem
      rcases hmem with h | h | h | h | h | h <;>
        (rw [h]; simp [Bindings.count, speedBindings, List.lookup])

/-- The key `w` is in the speed table; pressed in the initial state, with exact
arithmetic, it takes `speed` from 0.5 to 0.55 and leaves `turn` at 1. -/
theorem speed_key_scales_witness :
    (speedBindings exactArith).count 'w' = 1
      ∧ (loopBody exactArith (initState exactArith) 'w').state.speed = 11 / 20
      ∧ (loopBody exactArith (initState exactArith) 'w').state.turn = 1 := by
  have hw : (speedBindings exactArith).count 'w' = 1 := by
    simp [Bindings.count, speedBindings, List.lookup]
  obtain ⟨⟨lf, af, hv, hs, ht⟩, -⟩ :=
    speed_key_scales exactArith (initState exactArith) 'w' hw
  have hg : (speedBindings exactArith).get 'w' = [11 / 10, 1] := by
    simp [Bindings.get, speedBindings, List.lookup, exactArith]
  rw [hg] at hv
  simp only [List.cons.injEq, and_true] at hv
  refine ⟨hw, ?_, ?_⟩
  · rw [hs, ← hv.1]; simp [exactArith, initState]; norm_num
  · rw [ht, ← hv.2]; simp [exactArith, initState]

/-- C3: for every state and every key that is in neither table and is neither
`r` nor the quit sentinel, the cycle sets `(x, y, z, th)` to zero, prints the
"Invalid command" line (and then publishes the command), leaves `speed` and
`turn` as they were, and the loop keeps running. -/
theorem other_key_stops {F : Type} (A : FloatArith F) (s : State F) (k : Char)
    (hm : (moveBindings A).count k = 0) (hs : (speedBindings A).count k = 0)
    (hr : k ≠ 'r') (hq : k ≠ quitKey) :
    (loopBody A s k).state.x = A.lit 0
      ∧ (loopBody A s k).state.y = A.lit 0
      ∧ (loopBody A s k).state.z = A.lit 0
      ∧ (loopBody A s k).state.th = A.lit 0
      ∧ (loopBody A s k).outputs =
          [Output.printInvalid s.speed s.turn k,
           Output.twistPub (twistOf A (loopBody A s k).state)]
      ∧ (loopBody A s k).state.speed = s.speed
      ∧ (loopBody A s k).state.turn = s.turn
      ∧ (loopBody A s k).running = true := by
  have hb := keyBranch_other A s k hm hs hr hq
  have hl := loopBody_of_running A s k (by rw [hb])
  rw [hl, hb]
  simp

/-- The key `1` is in neither table and is neither `r` nor the quit sentinel;
pressed after `i` it zeroes the intent and leaves the speeds 0.5 and 1. -/
theorem other_key_stops_witness :
    (moveBindings exactArith).count '1' = 0
      ∧ (speedBindings exactArith).count '1' = 0
      ∧ '1' ≠ 'r' ∧ '1' ≠ quitKey
      ∧ (loopBody exactArith (initState exactArith) 'i').state.x = 1
      ∧ (loopBody exactArith (loopBody exactArith (initState exactArith) 'i').state '1').state.x
          = exactArith.lit 0
      ∧ (loopBody exactArith (loopBody exactArith (initState exactArith) 'i').state '1').running
          = true :=
  have hm : (moveBindings exactArith).count '1' = 0 := by
    simp [Bindings.count, moveBindings, List.lookup]
  have hs : (speedBindings exactArith).count '1' = 0 := by
    simp [Bindings.count, speedBindings, List.lookup]
  have h := other_key_stops exactArith
    (loopBody exactArith (initState exactArith) 'i').state '1' hm hs (by decide) (by decide)
  ⟨hm, hs, by decide, by decide,
   by simp [loopBody, keyBranch, Bindings.count, Bindings.get, moveBindings, List.lookup,
        vecAt, exactArith],
   h.1, h.2.2.2.2.2.2.2⟩

/-- C4 (as stated, refuted): after `i` the forward intent `x` is 1; the cycle
processing the quit sentinel leaves it at 0, so the intent is not the same
after the key as before it. -/
theorem quit_preserves_intent_counterexample :
    (loopBody exactArith (initState exactArith) 'i').state.x = 1
      ∧ (loopBody exactArith
          (loopBody exactArith (initState exactArith) 'i').state quitKey).state.x = 0
      ∧ (loopBody exactArith
          (loopBody exactArith (initState exactArith) 'i').state quitKey).state.x
          ≠ (loopBody exactArith (initState exactArith) 'i').state.x := by
  have h1 : (loopBody exactArith (initState exactArith) 'i').state.x = 1 := by
    simp [loopBody, keyBranch, Bindings.count, Bindings.get, moveBindings, List.lookup,
      vecAt, exactArith]
  have h2 : (loopBody exactArith
      (loopBody exactArith (initState exactArith) 'i').state quitKey).state.x = 0 := by
    rw [loopBody_quit]; simp [exactArith]
  refine ⟨h1, h2, ?_⟩
  rw [h1, h2]
  norm_num

/-- C4 (amended): for every state, the cycle processing the quit sentinel ends
the loop, writes only the shutdown line (no velocity command, nothing on the
relay or announcement channels), leaves `speed`, `turn` and the relay state as
they were, and sets `(x, y, z, th)` to zero. -/
theorem quit_ends_loop {F : Type} (A : FloatArith F) (s : State F) :
    (loopBody A s quitKey).running = false
      ∧ (loopBody A s quitKey).outputs = [Output.printShutdown]
      ∧ twistsOf (loopBody A s quitKey).outputs = []
      ∧ (loopBody A s quitKey).state.speed = s.speed
      ∧ (loopBody A s quitKey).state.turn = s.turn
      ∧ (loopBody A s quitKey).state.relayState = s.relayState
      ∧ (loopBody A s quitKey).state.x = A.lit 0
      ∧ (loopBody A s quitKey).state.y = A.lit 0
      ∧ (loopBody A s quitKey).state.z = A.lit 0
      ∧ (loopBody A s quitKey).state.th = A.lit 0 := by
  rw [loopBody_quit]
  simp [twistsOf]

/-! ## Lemmas on outputs and on the loop -/

theorem twistsOf_append {F : Type} (xs ys : List (Output F)) :
    twistsOf (xs ++ ys) = twistsOf xs ++ twistsOf ys := by
  induction xs with
  | nil => rfl
  | cons o os ih => cases o <;> simp [twistsOf, ih]

theorem relaysOf_append {F : Type} (xs ys : List (Output F)) :
    relaysOf (xs ++ ys) = relaysOf xs ++ relaysOf ys := by
  induction xs with
  | nil => rfl
  | cons o os ih => cases o <;> simp [relaysOf, ih]

theorem espeaksOf_append {F : Type} (xs ys : List (Output F)) :
    espeaksOf (xs ++ ys) = espeaksOf xs ++ espeaksOf ys := by
  induction xs with
  | nil => rfl
  | cons o os ih => cases o <;> simp [espeaksOf, ih]

theorem mem_twistsOf {F : Type} (t : Twist F) (os : List (Output F)) :
    Output.twistPub t ∈ os ↔ t ∈ twistsOf os := by
  induction os with
  | nil => simp [twistsOf]
  | cons o os ih => cases o <;> simp [twistsOf, ih]

theorem count_zero_or_one {F : Type} (m : Bindings F) (k : Char) :
    m.count k = 0 ∨ m.count k = 1 := by
  unfold Bindings.count
  split <;> simp

/-- The five ways a cycle can go, with the outcome of the key chain in each. -/
theorem keyBranch_classify {F : Type} (A : FloatArith F) (k : Char) :
    ((moveBindings A).count k = 1 ∧ k ≠ 'r' ∧ k ≠ quitKey)
    ∨ ((speedBindings A).count k = 1 ∧ k ≠ 'r' ∧ k ≠ quitKey)
    ∨ k = 'r'
    ∨ k = quitKey
    ∨ ((moveBindings A).count k = 0 ∧ (speedBindings A).count k = 0
        ∧ k ≠ 'r' ∧ k ≠ quitKey) := by
  by_cases hr : k = 'r'
  · exact Or.inr (Or.inr (Or.inl hr))
  by_cases hq : k = quitKey
  · exact Or.inr (Or.inr (Or.inr (Or.inl hq)))
  rcases count_zero_or_one (moveBindings A) k with hm | hm
  · rcases count_zero_or_one (speedBindings A) k with hs | hs
    · exact Or.inr (Or.inr (Or.inr (Or.inr ⟨hm, hs, hr, hq⟩)))
    · exact Or.inr (Or.inl ⟨hs, hr, hq⟩)
  · exact Or.inl ⟨hm, hr, hq⟩

theorem keyBranch_running {F : Type} (A : FloatArith F) (s : State F) (k : Char)
    (hq : k ≠ quitKey) : (keyBranch A s k).running = true := by
  rcases keyBranch_classify A k with h | h | h | h | h
  · rw [keyBranch_move A s k h.1]
  · rw [keyBranch_speed A s k h.1]
  · rw [h, keyBranch_relay]
  · exact absurd h hq
  · rw [keyBranch_other A s k h.1 h.2.1 h.2.2.1 h.2.2.2]

theorem keyBranch_no_twist {F : Type} (A : FloatArith F) (s : State F) (k : Char) :
    twistsOf (keyBranch A s k).outputs = [] := by
  rcases keyBranch_classify A k with h | h | h | h | h
  · rw [keyBranch_move A s k h.1]; rfl
  · rw [keyBranch_speed A s k h.1]; rfl
  · rw [h, keyBranch_relay]; rfl
  · rw [h, keyBranch_quit]; rfl
  · rw [keyBranch_other A s k h.1 h.2.1 h.2.2.1 h.2.2.2]; rfl

theorem loopBody_running {F : Type} (A : FloatArith F) (s : State F) (k : Char)
    (hq : k ≠ quitKey) : (loopBody A s k).running = true := by
  rw [loopBody_of_running A s k (keyBranch_running A s k hq)]

theorem twistsOf_loopBody {F : Type} (A : FloatArith F) (s : State F) (k : Char)
    (hq : k ≠ quitKey) :
    twistsOf (loopBody A s k).outputs = [twistOf A (loopBody A s k).state] := by
  rw [loopBody_of_running A s k (keyBranch_running A s k hq), twistsOf_append,
    keyBranch_no_twist]
  rfl

theorem mainLoop_cons_running {F : Type} (A : FloatArith F) (s : State F) (k : Char)
    (rest : List Char) (hq : k ≠ quitKey) :
    mainLoop A s (k :: rest) =
      ⟨(mainLoop A (loopBody A s k).state rest).final,
        (loopBody A s k).outputs ++ (mainLoop A (loopBody A s k).state rest).outputs,
        (mainLoop A (loopBody A s k).state rest).unread,
        (mainLoop A (loopBody A s k).state rest).exitCode⟩ := by
  simp [mainLoop, loopBody_running A s k hq]

theorem mainLoop_cons_quit {F : Type} (A : FloatArith F) (s : State F) (rest : List Char) :
    mainLoop A s (quitKey :: rest) =
      ⟨{ s with x := A.lit 0, y := A.lit 0, z := A.lit 0, th := A.lit 0 },
        [Output.printShutdown], rest, some 0⟩ := by
  simp [mainLoop, loopBody_quit]

/-- A key other than the relay key leaves the relay state alone and writes
nothing on the relay and announcement channels. -/
theorem loopBody_relay_other {F : Type} (A : FloatArith F) (s : State F) (k : Char)
    (hr : k ≠ 'r') :
    (loopBody A s k).state.relayState = s.relayState
      ∧ relaysOf (loopBody A s k).outputs = []
      ∧ espeaksOf (loopBody A s k).outputs = [] := by
  rcases keyBranch_classify A k with h | h | h | h | h
  · have hb := keyBranch_move A s k h.1
    rw [loopBody_of_running A s k (by rw [hb]), hb]
    exact ⟨rfl, rfl, rfl⟩
  · have hb := keyBranch_speed A s k h.1
    rw [loopBody_of_running A s k (by rw [hb]), hb]
    exact ⟨rfl, rfl, rfl⟩
  · exact absurd h hr
  · rw [h, loopBody_quit]
    exact ⟨rfl, rfl, rfl⟩
  · have hb := keyBranch_other A s k h.1 h.2.1 h.2.2.1 h.2.2.2
    rw [loopBody_of_running A s k (by rw [hb]), hb]
    exact ⟨rfl, rfl, rfl⟩

/-- The relay key flips the relay state, publishes the new state and announces
it. -/
theorem loopBody_relay_press {F : Type} (A : FloatArith F) (s : State F) :
    (loopBody A s 'r').state.relayState = !s.relayState
      ∧ relaysOf (loopBody A s 'r').outputs = [!s.relayState]
      ∧ espeaksOf (loopBody A s 'r').outputs = [announcement (!s.relayState)] := by
  have hb := keyBranch_relay A s
  rw [loopBody_of_running A s 'r' (by rw [hb]), hb]
  refine ⟨rfl, rfl, ?_⟩
  cases s.relayState <;> rfl

theorem toggles_eq_map (n : Nat) : ∀ b : Bool,
    toggles b n = (List.range n).map (fun i => if i % 2 = 0 then !b else b) := by
  induction n with
  | zero => intro b; rfl
  | succ n ih =>
    intro b
    rw [toggles, ih, List.range_succ_eq_map, List.map_cons, List.map_map]
    simp only [Nat.zero_mod, if_true, Bool.not_not]
    congr 1
    apply List.map_congr_left
    intro i _
    simp only [Function.comp]
    rcases Nat.mod_two_eq_zero_or_one i with h | h
    · have h2 : (i + 1) % 2 = 1 := by omega
      simp [h, h2]
    · have h2 : (i + 1) % 2 = 0 := by omega
      simp [h, h2]

/-- Over a run without quit sentinel the relay state ends flipped exactly when
the number of relay keys is odd, and the relay and announcement channels
carry, press by press, the relay state each press results in. -/
theorem mainLoop_relay {F : Type} (A : FloatArith F) : ∀ (keys : List Char) (s : State F),
    quitKey ∉ keys →
    (mainLoop A s keys).final.relayState
        = (if keys.count 'r' % 2 = 1 then !s.relayState else s.relayState)
      ∧ relaysOf (mainLoop A s keys).outputs = toggles s.relayState (keys.count 'r')
      ∧ espeaksOf (mainLoop A s keys).outputs
          = (toggles s.relayState (keys.count 'r')).map announcement
  | [], s, _ => by simp [mainLoop, relaysOf, espeaksOf, toggles]
  | k :: rest, s, hq => by
    have hk : k ≠ quitKey := fun h => hq (by simp [h])
    have hrest : quitKey ∉ rest := fun h => hq (List.mem_cons_of_mem _ h)
    obtain ⟨ih1, ih2, ih3⟩ := mainLoop_relay A rest (loopBody A s k).state hrest
    rw [mainLoop_cons_running A s k rest hk]
    simp only [relaysOf_append, espeaksOf_append]
    rw [ih1, ih2, ih3]
    by_cases hr : k = 'r'
    · subst hr
      obtain ⟨p1, p2, p3⟩ := loopBody_relay_press A s
      rw [p1, p2, p3, List.count_cons_self]
      refine ⟨?_, ?_, ?_⟩
      · rcases Nat.mod_two_eq_zero_or_one (List.count 'r' rest) with h | h
        · have h2 : (List.count 'r' rest + 1) % 2 = 1 := by omega
          simp [h, h2]
        · have h2 : (List.count 'r' rest + 1) % 2 = 0 := by omega
          simp [h, h2]
      · simp [toggles]
      · simp [toggles]
    · obtain ⟨p1, p2, p3⟩ := loopBody_relay_other A s k hr
      have hc : List.count 'r' (k :: rest) = List.count 'r' rest :=
        List.count_cons_of_ne (fun h => hr h.symm) rest
      rw [p1, p2, p3, hc]
      simp

/-! ## Relay toggle -/

/-- C5: from a state with the relay disengaged, after any key sequence without
quit sentinel the relay is engaged exactly when the number of `r` keys is odd;
the relay channel carries one boolean per `r` press, the state that press
results in (true, false, true, ...), and the announcement channel the matching
text; a key other than `r` never changes the relay state and writes nothing on
either channel; every `r` press flips the state and writes the resulting state
and its text. -/
theorem relay_parity {F : Type} (A : FloatArith F) (s : State F) (keys : List Char)
    (h0 : s.relayState = false) (hq : quitKey ∉ keys) :
    ((mainLoop A s keys).final.relayState = true ↔ keys.count 'r' % 2 = 1)
      ∧ relaysOf (mainLoop A s keys).outputs
          = (List.range (keys.count 'r')).map (fun i => decide (i % 2 = 0))
      ∧ espeaksOf (mainLoop A s keys).outputs
          = (List.range (keys.count 'r')).map
              (fun i => if i % 2 = 0 then "motors engaged" else "motors disengaged")
      ∧ (∀ (t : State F) (k : Char), k ≠ 'r' →
          (loopBody A t k).state.relayState = t.relayState
            ∧ relaysOf (loopBody A t k).outputs = []
            ∧ espeaksOf (loopBody A t k).outputs = [])
      ∧ (∀ t : State F,
          (loopBody A t 'r').state.relayState = (!t.relayState)
            ∧ relaysOf (loopBody A t 'r').outputs = [(loopBody A t 'r').state.relayState]
            ∧ espeaksOf (loopBody A t 'r').outputs =
                [if (loopBody A t 'r').state.relayState = true then "motors engaged"
                  else "motors disengaged"]) := by
  obtain ⟨h1, h2, h3⟩ := mainLoop_relay A keys s hq
  refine ⟨?_, ?_, ?_, fun t k hk => loopBody_relay_other A t k hk, fun t => ?_⟩
  · rw [h1, h0]
    by_cases hc : keys.count 'r' % 2 = 1 <;> simp [hc]
  · rw [h2, h0, toggles_eq_map]
    apply List.map_congr_left
    intro i _
    by_cases hi : i % 2 = 0 <;> simp [hi]
  · rw [h3, h0, toggles_eq_map, List.map_map]
    apply List.map_congr_left
    intro i _
    by_cases hi : i % 2 = 0 <;> simp [hi, announcement]
  · obtain ⟨p1, p2, p3⟩ := loopBody_relay_press A t
    refine ⟨p1, by rw [p2, p1], ?_⟩
    rw [p3, p1]
    cases t.relayState <;> simp [announcement]

/-- From the initial state the keys `r i r q r` (three presses of `r`) leave
the relay engaged, with `true, false, true` on the relay channel. -/
theorem relay_parity_witness :
    (initState exactArith).relayState = false
      ∧ quitKey ∉ ['r', 'i', 'r', 'q', 'r']
      ∧ (mainLoop exactArith (initState exactArith) ['r', 'i', 'r', 'q', 'r']).final.relayState
          = true
      ∧ relaysOf (mainLoop exactArith (initState exactArith) ['r', 'i', 'r', 'q', 'r']).outputs
          = [true, false, true] := by
  have hq : quitKey ∉ ['r', 'i', 'r', 'q', 'r'] := by decide
  have h := relay_parity exactArith (initState exactArith) ['r', 'i', 'r', 'q', 'r'] rfl hq
  have hc : List.count 'r' ['r', 'i', 'r', 'q', 'r'] = 3 := by decide
  rw [hc] at h
  refine ⟨rfl, hq, h.1.2 (by decide), ?_⟩
  rw [h.2.1]
  decide

/-- C6: for every state, the cycle processing the relay key `r` leaves `speed`,
`turn` and `(x, y, z, th)` as they were, keeps the loop running, and publishes
exactly one velocity command, the one computed from the unchanged state. -/
theorem relay_key_frame {F : Type} (A : FloatArith F) (s : State F) :
    (loopBody A s 'r').state.speed = s.speed
      ∧ (loopBody A s 'r').state.turn = s.turn
      ∧ (loopBody A s 'r').state.x = s.x
      ∧ (loopBody A s 'r').state.y = s.y
      ∧ (loopBody A s 'r').state.z = s.z
      ∧ (loopBody A s 'r').state.th = s.th
      ∧ (loopBody A s 'r').running = true
      ∧ twistsOf (loopBody A s 'r').outputs = [twistOf A s]
      ∧ twistOf A s =
          ⟨⟨A.mul s.x s.speed, A.mul s.y s.speed, A.mul s.z s.speed⟩,
           ⟨A.lit 0, A.lit 0, A.mul s.th s.turn⟩⟩ := by
  have hb := keyBranch_relay A s
  rw [loopBody_of_running A s 'r' (by rw [hb]), hb]
  exact ⟨rfl, rfl, rfl, rfl, rfl, rfl, rfl, rfl, rfl⟩

/-! ## The velocity command -/

/-- C7: whenever a cycle publishes a velocity command, its fields are computed
from the globals as the key left them: linear = (x*speed, y*speed, z*speed),
angular = (0, 0, th*turn). -/
theorem twist_from_updated_state {F : Type} (A : FloatArith F) (s : State F) (k : Char)
    (t : Twist F) (h : Output.twistPub t ∈ (loopBody A s k).outputs) :
    t.linear.x = A.mul (loopBody A s k).state.x (loopBody A s k).state.speed
      ∧ t.linear.y = A.mul (loopBody A s k).state.y (loopBody A s k).state.speed
      ∧ t.linear.z = A.mul (loopBody A s k).state.z (loopBody A s k).state.speed
      ∧ t.angular.x = A.lit 0
      ∧ t.angular.y = A.lit 0
      ∧ t.angular.z = A.mul (loopBody A s k).state.th (loopBody A s k).state.turn := by
  rw [mem_twistsOf] at h
  by_cases hq : k = quitKey
  · subst hq
    rw [loopBody_quit] at h
    simp [twistsOf] at h
  · rw [twistsOf_loopBody A s k hq, List.mem_singleton] at h
    subst h
    exact ⟨rfl, rfl, rfl, rfl, rfl, rfl⟩

/-- Pressing `o` in the initial state publishes, with exact arithmetic, the
command linear (0.5, 0, 0), angular (0, 0, -1). -/
theorem twist_from_updated_state_witness :
    Output.twistPub ⟨⟨1 / 2, 0, 0⟩, ⟨0, 0, -1⟩⟩
        ∈ (loopBody exactArith (initState exactArith) 'o').outputs
      ∧ (1 / 2 : ℚ) = exactArith.mul (loopBody exactArith (initState exactArith) 'o').state.x
          (loopBody exactArith (initState exactArith) 'o').state.speed
      ∧ (-1 : ℚ) = exactArith.mul (loopBody exactArith (initState exactArith) 'o').state.th
          (loopBody exactArith (initState exactArith) 'o').state.turn := by
  have hmem : Output.twistPub ⟨⟨1 / 2, 0, 0⟩, ⟨0, 0, -1⟩⟩
      ∈ (loopBody exactArith (initState exactArith) 'o').outputs := by
    simp [loopBody, keyBranch, Bindings.count, Bindings.get, moveBindings, List.lookup,
      vecAt, exactArith, twistOf, initState]
  have h := twist_from_updated_state exactArith (initState exactArith) 'o' _ hmem
  exact ⟨hmem, h.1, h.2.2.2.2.2⟩

/-- C8: for every state and key sequence, the velocity commands published are,
in order, the commands computed from the state after each key that precedes the
first quit sentinel, one per such key; the keys left unread are exactly those
after the first quit sentinel; everything written is what the keys before the
first quit sentinel cause, followed by the shutdown line when there is one;
and `main` returns (with 0) exactly when a quit sentinel is read. -/
theorem one_twist_per_key {F : Type} (A : FloatArith F) (s : State F) (keys : List Char) :
    twistsOf (mainLoop A s keys).outputs
        = (statesAfter A s (keys.takeWhile (fun k => k != quitKey))).map (twistOf A)
      ∧ (twistsOf (mainLoop A s keys).outputs).length
          = (keys.takeWhile (fun k => k != quitKey)).length
      ∧ (mainLoop A s keys).unread = (keys.dropWhile (fun k => k != quitKey)).drop 1
      ∧ (mainLoop A s keys).outputs
          = (mainLoop A s (keys.takeWhile (fun k => k != quitKey))).outputs
              ++ (if quitKey ∈ keys then [Output.printShutdown] else [])
      ∧ ((mainLoop A s keys).exitCode = some 0 ↔ quitKey ∈ keys)
      ∧ ((mainLoop A s keys).exitCode = none ↔ quitKey ∉ keys) := by
  induction keys generalizing s with
  | nil => simp [mainLoop, twistsOf, statesAfter]
  | cons k rest ih =>
    by_cases hk : k = quitKey
    · subst hk
      rw [mainLoop_cons_quit]
      simp [twistsOf, statesAfter, mainLoop]
    · obtain ⟨i1, i2, i3, i4, i5, i6⟩ := ih (loopBody A s k).state
      have hb : (k != quitKey) = true := by simpa using hk
      have hne : quitKey ≠ k := fun h => hk h.symm
      have hmem : (quitKey ∈ k :: rest) ↔ quitKey ∈ rest := by
        simp [hne]
      rw [mainLoop_cons_running A s k rest hk]
      simp only [List.takeWhile_cons, List.dropWhile_cons, hb, if_true, hmem]
      rw [mainLoop_cons_running A s k _ hk]
      simp only [twistsOf_append, twistsOf_loopBody A s k hk, statesAfter, List.map_cons,
        List.length_cons, List.length_append, List.length_nil, List.append_assoc]
      refine ⟨?_, ?_, i3, ?_, i5, i6⟩
      · rw [i1]; rfl
      · rw [i2]; omega
      · rw [i4]

/-! ## Speeds in exact arithmetic -/

/-- In exact arithmetic a cycle keeps positive speeds positive. -/
theorem loopBody_speeds_pos (s : State ℚ) (k : Char) (hs : 0 < s.speed) (ht : 0 < s.turn) :
    0 < (loopBody exactArith s k).state.speed ∧ 0 < (loopBody exactArith s k).state.turn := by
  rcases keyBranch_classify exactArith k with h | h | h | h | h
  · have hb := keyBranch_move exactArith s k h.1
    rw [loopBody_of_running exactArith s k (by rw [hb]), hb]
    exact ⟨hs, ht⟩
  · have hb := keyBranch_speed exactArith s k h.1
    rw [loopBody_of_running exactArith s k (by rw [hb]), hb]
    rcases speedBindings_cases exactArith k h.1 with c | c | c | c | c | c <;>
      rw [c.2] <;> simp only [vecAt, exactArith, List.getD_cons_zero, List.getD_cons_succ] <;>
      constructor <;> positivity
  · have hb := keyBranch_relay exactArith s
    rw [h, loopBody_of_running exactArith s 'r' (by rw [hb]), hb]
    exact ⟨hs, ht⟩
  · rw [h, loopBody_quit]
    exact ⟨hs, ht⟩
  · have hb := keyBranch_other exactArith s k h.1 h.2.1 h.2.2.1 h.2.2.2
    rw [loopBody_of_running exactArith s k (by rw [hb]), hb]
    exact ⟨hs, ht⟩

/-- In exact arithmetic a run from positive speeds ends with positive speeds. -/
theorem mainLoop_speeds_pos : ∀ (keys : List Char) (s : State ℚ),
    0 < s.speed → 0 < s.turn →
    0 < (mainLoop exactArith s keys).final.speed ∧ 0 < (mainLoop exactArith s keys).final.turn
  | [], _, hs, ht => ⟨hs, ht⟩
  | k :: rest, s, hs, ht => by
    by_cases hk : k = quitKey
    · subst hk
      rw [mainLoop_cons_quit]
      exact ⟨hs, ht⟩
    · rw [mainLoop_cons_running exactArith s k rest hk]
      obtain ⟨h1, h2⟩ := loopBody_speeds_pos s k hs ht
      exact mainLoop_speeds_pos rest _ h1 h2

/-- The two cycles `q` then `z`, in any arithmetic: each speed is multiplied by
the constant 1.1 and then by the constant 0.9. -/
theorem q_then_z {F : Type} (A : FloatArith F) (s : State F) :
    (loopBody A (loopBody A s 'q').state 'z').state.speed
        = A.mul (A.mul s.speed (A.lit (11/10))) (A.lit (9/10))
      ∧ (loopBody A (loopBody A s 'q').state 'z').state.turn
        = A.mul (A.mul s.turn (A.lit (11/10))) (A.lit (9/10)) := by
  have hq : (speedBindings A).count 'q' = 1 := by
    simp [Bindings.count, speedBindings, List.lookup]
  have hz : (speedBindings A).count 'z' = 1 := by
    simp [Bindings.count, speedBindings, List.lookup]
  have gq : (speedBindings A).get 'q' = [A.lit (11/10), A.lit (11/10)] := by
    simp [Bindings.get, speedBindings, List.lookup]
  have gz : (speedBindings A).get 'z' = [A.lit (9/10), A.lit (9/10)] := by
    simp [Bindings.get, speedBindings, List.lookup]
  have hbq := keyBranch_speed A s 'q' hq
  rw [loopBody_of_running A s 'q' (by rw [hbq]), hbq]
  have hbz := fun t => keyBranch_speed A t 'z' hz
  rw [loopBody_of_running A _ 'z' (by rw [hbz]), hbz, gq, gz]
  simp [vecAt]

/-- C10 (as stated, refuted): in exact arithmetic, pressing `q` and then `z` in
the initial state leaves `speed` at 0.495 instead of 0.5 and `turn` at 0.99
instead of 1: each is one hundredth below its value before the `q` press. -/
theorem q_z_round_trip_counterexample :
    (initState exactArith).speed = 1 / 2
      ∧ (initState exactArith).turn = 1
      ∧ (loopBody exactArith (loopBody exactArith (initState exactArith) 'q').state 'z').state.speed
          = 99 / 200
      ∧ (loopBody exactArith (loopBody exactArith (initState exactArith) 'q').state 'z').state.turn
          = 99 / 100
      ∧ (loopBody exactArith (loopBody exactArith (initState exactArith) 'q').state 'z').state.speed
          ≠ (initState exactArith).speed
      ∧ (loopBody exactArith (loopBody exactArith (initState exactArith) 'q').state 'z').state.turn
          ≠ (initState exactArith).turn := by
  obtain ⟨h1, h2⟩ := q_then_z exactArith (initState exactArith)
  have e1 : exactArith.mul (exactArith.mul (initState exactArith).speed
      (exactArith.lit (11/10))) (exactArith.lit (9/10)) = 99 / 200 := by
    show ((1 / 2 : ℚ) * (11 / 10)) * (9 / 10) = 99 / 200
    norm_num
  have e2 : exactArith.mul (exactArith.mul (initState exactArith).turn
      (exactArith.lit (11/10))) (exactArith.lit (9/10)) = 99 / 100 := by
    show ((1 : ℚ) * (11 / 10)) * (9 / 10) = 99 / 100
    norm_num
  rw [h1, h2, e1, e2]
  refine ⟨rfl, rfl, rfl, rfl, ?_, ?_⟩
  · show (99 / 200 : ℚ) ≠ 1 / 2
    norm_num
  · show (99 / 100 : ℚ) ≠ 1
    norm_num

/-- C10 (amended): for every state, pressing `q` and then `z` multiplies each
of `speed` and `turn` by the constant 1.1 and then by the constant 0.9; in
exact arithmetic that leaves each at 99/100 of its value before the `q`
press. -/
theorem q_then_z_scales :
    (∀ (F : Type) (A : FloatArith F) (s : State F),
        (loopBody A (loopBody A s 'q').state 'z').state.speed
            = A.mul (A.mul s.speed (A.lit (11/10))) (A.lit (9/10))
          ∧ (loopBody A (loopBody A s 'q').state 'z').state.turn
            = A.mul (A.mul s.turn (A.lit (11/10))) (A.lit (9/10)))
      ∧ (∀ s : State ℚ,
        (loopBody exactArith (loopBody exactArith s 'q').state 'z').state.speed
            = s.speed * (99 / 100)
          ∧ (loopBody exactArith (loopBody exactArith s 'q').state 'z').state.turn
            = s.turn * (99 / 100)) := by
  refine ⟨fun F A s => q_then_z A s, fun s => ?_⟩
  obtain ⟨h1, h2⟩ := q_then_z exactArith s
  rw [h1, h2]
  constructor
  · show (s.speed * (11 / 10)) * (9 / 10) = s.speed * (99 / 100)
    ring
  · show (s.turn * (11 / 10)) * (9 / 10) = s.turn * (99 / 100)
    ring

/-! ## Lemmas on `getch` and on the loop reading through it -/

theorem getch_fst (K : TermiosConsts) (tty : Tty) : (getch K tty).1 = (getchar tty).1 := by
  unfold getch getchar tcsetattr tcgetattr
  cases h : tty.input <;> simp

theorem getch_attrs (K : TermiosConsts) (tty : Tty) : (getch K tty).2.attrs = tty.attrs := by
  unfold getch getchar tcsetattr tcgetattr
  cases h : tty.input <;> simp

theorem getch_input (K : TermiosConsts) (tty : Tty) :
    (getch K tty).2.input = tty.input.tail := by
  unfold getch getchar tcsetattr tcgetattr
  cases h : tty.input <;> simp

theorem getch_nil (K : TermiosConsts) (attrs : Termios) :
    getch K ⟨attrs, []⟩ = (EOF, ⟨attrs, []⟩) := by
  simp [getch, getchar, tcsetattr, tcgetattr]

theorem getch_cons (K : TermiosConsts) (attrs : Termios) (c : Int) (cs : List Int) :
    getch K ⟨attrs, c :: cs⟩ = (c, ⟨attrs, cs⟩) := by
  simp [getch, getchar, tcsetattr, tcgetattr]

theorem charOfInt_EOF : charOfInt EOF = Char.ofNat 255 := by decide

theorem eofKey_facts {F : Type} (A : FloatArith F) :
    (moveBindings A).count (Char.ofNat 255) = 0
      ∧ (speedBindings A).count (Char.ofNat 255) = 0
      ∧ Char.ofNat 255 ≠ 'r' ∧ Char.ofNat 255 ≠ quitKey := by
  refine ⟨?_, ?_, by decide, by decide⟩
  · simp [Bindings.count, moveBindings, List.lookup]
  · simp [Bindings.count, speedBindings, List.lookup]

/-- The loop on a terminal does what the loop does on the keys the terminal
delivers. -/
theorem mainLoopTty_eq {F : Type} (K : TermiosConsts) (A : FloatArith F) :
    ∀ (n : Nat) (s : State F) (tty : Tty),
      (mainLoopTty K A n s tty).final = (mainLoop A s (keysOf K n tty)).final
        ∧ (mainLoopTty K A n s tty).outputs = (mainLoop A s (keysOf K n tty)).outputs
        ∧ (mainLoopTty K A n s tty).exitCode = (mainLoop A s (keysOf K n tty)).exitCode
  | 0, s, tty => ⟨rfl, rfl, rfl⟩
  | n + 1, s, tty => by
    obtain ⟨h1, h2, h3⟩ :=
      mainLoopTty_eq K A n (loopBody A s (charOfInt (getch K tty).1)).state (getch K tty).2
    by_cases hr : (loopBody A s (charOfInt (getch K tty).1)).running = true
    · simp only [mainLoopTty, keysOf, mainLoop, hr, if_true]
      exact ⟨h1, by rw [h2], h3⟩
    · simp only [mainLoopTty, keysOf, mainLoop, hr]
      exact ⟨rfl, rfl, rfl⟩

theorem mainLoopTty_attrs {F : Type} (K : TermiosConsts) (A : FloatArith F) :
    ∀ (n : Nat) (s : State F) (tty : Tty), (mainLoopTty K A n s tty).tty.attrs = tty.attrs
  | 0, _, _ => rfl
  | n + 1, s, tty => by
    by_cases hr : (loopBody A s (charOfInt (getch K tty).1)).running = true
    · simp only [mainLoopTty, hr, if_true]
      rw [mainLoopTty_attrs K A n, getch_attrs]
    · simp only [mainLoopTty, hr]
      exact getch_attrs K tty

theorem keysOf_nil (K : TermiosConsts) (attrs : Termios) :
    ∀ n : Nat, keysOf K n ⟨attrs, []⟩ = List.replicate n (Char.ofNat 255)
  | 0 => rfl
  | n + 1 => by
    rw [keysOf, getch_nil, keysOf_nil K attrs n, charOfInt_EOF]
    rfl

theorem keysOf_cons (K : TermiosConsts) (attrs : Termios) (c : Int) (cs : List Int) (n : Nat) :
    keysOf K (n + 1) ⟨attrs, c :: cs⟩ = charOfInt c :: keysOf K n ⟨attrs, cs⟩ := by
  rw [keysOf, getch_cons]

/-! ## Read failure -/

/-- C12 (as stated, refuted): with nothing to read, `getch` returns `EOF`, yet
one cycle of `main` neither ends the loop nor stays silent: the value is
processed as the key 0xFF, the "Invalid command" line is printed and a
velocity command is published. -/
theorem read_failure_fatal_counterexample :
    (getch linuxConsts ⟨cookedMode, []⟩).1 = EOF
      ∧ (main linuxConsts exactArith 1 ⟨cookedMode, []⟩).session.exitCode = none
      ∧ (main linuxConsts exactArith 1 ⟨cookedMode, []⟩).session.outputs
          = [Output.printInvalid (1 / 2) 1 (Char.ofNat 255),
             Output.twistPub ⟨⟨0, 0, 0⟩, ⟨0, 0, 0⟩⟩] := by
  refine ⟨by rw [getch_nil], ?_, ?_⟩
  · show (mainLoopTty linuxConsts exactArith 1 (initState exactArith) _).exitCode = none
    rw [(mainLoopTty_eq linuxConsts exactArith 1 _ _).2.2, keysOf_nil]
    simp [mainLoop, loopBody, keyBranch, Bindings.count, Bindings.get, moveBindings,
      speedBindings, List.lookup, vecAt, exactArith, initState, quitKey]
  · show (mainLoopTty linuxConsts exactArith 1 (initState exactArith) _).outputs = _
    rw [(mainLoopTty_eq linuxConsts exactArith 1 _ _).2.1, keysOf_nil]
    simp [mainLoop, loopBody, keyBranch, Bindings.count, Bindings.get, moveBindings,
      speedBindings, List.lookup, vecAt, exactArith, initState, quitKey, twistOf]

/-- On exhausted input every cycle runs on and publishes one command. -/
theorem mainLoop_replicate_eof {F : Type} (A : FloatArith F) :
    ∀ (n : Nat) (s : State F),
      (mainLoop A s (List.replicate n (Char.ofNat 255))).exitCode = none
        ∧ (twistsOf (mainLoop A s (List.replicate n (Char.ofNat 255))).outputs).length = n
  | 0, _ => ⟨rfl, rfl⟩
  | n + 1, s => by
    obtain ⟨-, -, -, hq⟩ := eofKey_facts A
    obtain ⟨h1, h2⟩ := mainLoop_replicate_eof A n (loopBody A s (Char.ofNat 255)).state
    rw [List.replicate_succ, mainLoop_cons_running A s _ _ hq]
    refine ⟨h1, ?_⟩
    simp only [twistsOf_append, twistsOf_loopBody A s _ hq, List.length_append,
      List.length_singleton, h2]
    omega

/-- C12 (amended): when the read fails and `getch` returns -1, the loop does
not stop: the value, converted to `char`, is the byte 0xFF, which is in
neither table and is neither `r` nor 0x03, so the cycle zeroes the intent,
prints the "Invalid command" line, publishes a velocity command, keeps the
speeds and goes on; with the input exhausted the loop never ends, publishing
one command per cycle. -/
theorem read_failure_continues {F : Type} (K : TermiosConsts) (A : FloatArith F)
    (s : State F) (tty : Tty) (h : (getch K tty).1 = EOF) :
    charOfInt (getch K tty).1 = Char.ofNat 255
      ∧ (loopBody A s (charOfInt (getch K tty).1)).running = true
      ∧ (loopBody A s (charOfInt (getch K tty).1)).outputs
          = [Output.printInvalid s.speed s.turn (Char.ofNat 255),
             Output.twistPub ⟨⟨A.mul (A.lit 0) s.speed, A.mul (A.lit 0) s.speed,
                A.mul (A.lit 0) s.speed⟩, ⟨A.lit 0, A.lit 0, A.mul (A.lit 0) s.turn⟩⟩]
      ∧ (loopBody A s (charOfInt (getch K tty).1)).state
          = { s with x := A.lit 0, y := A.lit 0, z := A.lit 0, th := A.lit 0 }
      ∧ (∀ (n : Nat) (attrs : Termios),
          (mainLoopTty K A n s ⟨attrs, []⟩).exitCode = none
            ∧ (twistsOf (mainLoopTty K A n s ⟨attrs, []⟩).outputs).length = n) := by
  obtain ⟨hm, hs, hr, hq⟩ := eofKey_facts A
  have hb := keyBranch_other A s (Char.ofNat 255) hm hs hr hq
  rw [h, charOfInt_EOF, loopBody_of_running A s _ (by rw [hb]), hb]
  refine ⟨rfl, rfl, rfl, rfl, fun n attrs => ?_⟩
  obtain ⟨-, e2, e3⟩ := mainLoopTty_eq K A n s ⟨attrs, []⟩
  rw [e2, e3, keysOf_nil]
  exact mainLoop_replicate_eof A n s

/-- A terminal with nothing to read: `getch` returns `EOF`, and the cycle from
the initial state keeps running. -/
theorem read_failure_continues_witness :
    (getch linuxConsts ⟨cookedMode, []⟩).1 = EOF
      ∧ (loopBody exactArith (initState exactArith)
          (charOfInt (getch linuxConsts ⟨cookedMode, []⟩).1)).running = true :=
  have h : (getch linuxConsts ⟨cookedMode, []⟩).1 = EOF := by rw [getch_nil]
  ⟨h, (read_failure_continues linuxConsts exactArith (initState exactArith) _ h).2.1⟩

/-! ## Terminal mode -/

/-- C13: for every terminal mode in effect before the call and whatever is
read, `getch` returns with that same mode in effect; it returns what
`getchar` returned and consumes that one input; so the mode is also unchanged
after any number of cycles of the loop.  (While `getchar` waits, the mode in
effect is the raw mode built in lines 96-104; for a default Linux mode that
raw mode differs from the mode restored.) -/
theorem getch_restores_mode :
    (∀ (K : TermiosConsts) (tty : Tty),
        (getch K tty).2.attrs = tty.attrs
          ∧ (getch K tty).1 = (getchar tty).1
          ∧ (getch K tty).2.input = tty.input.tail
          ∧ (ttyDuringRead K tty).attrs = rawMode K tty.attrs)
      ∧ (∀ (F : Type) (K : TermiosConsts) (A : FloatArith F) (n : Nat) (s : State F)
          (tty : Tty), (mainLoopTty K A n s tty).tty.attrs = tty.attrs)
      ∧ (rawMode linuxConsts cookedMode).c_lflag = 2560
      ∧ (rawMode linuxConsts cookedMode).c_iflag = 1
      ∧ (ttyDuringRead linuxConsts ⟨cookedMode, [105]⟩).attrs ≠ cookedMode
      ∧ getch linuxConsts ⟨cookedMode, [105]⟩ = (105, ⟨cookedMode, []⟩) := by
  refine ⟨fun K tty => ⟨getch_attrs K tty, getch_fst K tty, getch_input K tty, rfl⟩,
    fun F K A n s tty => mainLoopTty_attrs K A n s tty, ?_, ?_, ?_, ?_⟩
  · simp [rawMode, linuxConsts, clearBits, cookedMode]
    decide
  · simp [rawMode, linuxConsts, clearBits, cookedMode]
    decide
  · intro h
    have h2 : (rawMode linuxConsts cookedMode).c_iflag = cookedMode.c_iflag :=
      congrArg Termios.c_iflag h
    simp [rawMode, linuxConsts, clearBits, cookedMode] at h2
    revert h2
    decide
  · rw [getch_cons]

/-! ## Key classes -/

/-- C14: no key is in both tables; `r` and the quit sentinel are in neither
and differ from each other; so every key is in exactly one of the classes
movement, speed, relay, quit, unrecognized; and testing the speed table
before the movement table gives the same outcome as the order of the
program, for every state and key. -/
theorem key_classes_disjoint {F : Type} (A : FloatArith F) :
    (∀ k : Char, ¬ ((moveBindings A).count k = 1 ∧ (speedBindings A).count k = 1))
      ∧ (moveBindings A).count 'r' = 0 ∧ (speedBindings A).count 'r' = 0
      ∧ (moveBindings A).count quitKey = 0 ∧ (speedBindings A).count quitKey = 0
      ∧ 'r' ≠ quitKey
      ∧ (∀ k : Char,
          ((moveBindings A).count k = 1 ∧ ¬ (speedBindings A).count k = 1
              ∧ k ≠ 'r' ∧ k ≠ quitKey)
          ∨ (¬ (moveBindings A).count k = 1 ∧ (speedBindings A).count k = 1
              ∧ k ≠ 'r' ∧ k ≠ quitKey)
          ∨ (¬ (moveBindings A).count k = 1 ∧ ¬ (speedBindings A).count k = 1
              ∧ k = 'r' ∧ k ≠ quitKey)
          ∨ (¬ (moveBindings A).count k = 1 ∧ ¬ (speedBindings A).count k = 1
              ∧ k ≠ 'r' ∧ k = quitKey)
          ∨ (¬ (moveBindings A).count k = 1 ∧ ¬ (speedBindings A).count k = 1
              ∧ k ≠ 'r' ∧ k ≠ quitKey))
      ∧ (∀ (s : State F) (k : Char), keyBranchSpeedFirst A s k = keyBranch A s k) := by
  have hrq : 'r' ≠ quitKey := by decide
  have hdis : ∀ k : Char, (speedBindings A).count k = 1 → ¬ (moveBindings A).count k = 1 := by
    intro k hs hm
    rw [speed_key_not_move A k hs] at hm
    exact absurd hm (by decide)
  refine ⟨fun k h => hdis k h.2 h.1, moveBindings_count_r A, speedBindings_count_r A,
    moveBindings_count_quit A, speedBindings_count_quit A, hrq, fun k => ?_, fun s k => ?_⟩
  · rcases keyBranch_classify A k with h | h | h | h | h
    · exact Or.inl ⟨h.1, fun hs => hdis k hs h.1, h.2.1, h.2.2⟩
    · exact Or.inr (Or.inl ⟨hdis k h.1, h.1, h.2.1, h.2.2⟩)
    · subst h
      refine Or.inr (Or.inr (Or.inl ⟨?_, ?_, rfl, hrq⟩))
      · rw [moveBindings_count_r]; decide
      · rw [speedBindings_count_r]; decide
    · subst h
      refine Or.inr (Or.inr (Or.inr (Or.inl ⟨?_, ?_, fun h => hrq h.symm, rfl⟩)))
      · rw [moveBindings_count_quit]; decide
      · rw [speedBindings_count_quit]; decide
    · refine Or.inr (Or.inr (Or.inr (Or.inr ⟨?_, ?_, h.2.2.1, h.2.2.2⟩)))
      · rw [h.1]; decide
      · rw [h.2.1]; decide
  · unfold keyBranchSpeedFirst keyBranch
    by_cases hs : (speedBindings A).count k = 1
    · have hm := hdis k hs
      simp [hs, hm]
    · simp [hs]

/-! ## The movement table -/

/-- Every vector of `moveBindings` has four components, each the constant -1,
0 or 1. -/
theorem moveBindings_unit {F : Type} (A : FloatArith F) (k : Char)
    (h : (moveBindings A).count k = 1) :
    ∃ a b c d, (moveBindings A).get k = [a, b, c, d]
      ∧ a ∈ [A.lit (-1), A.lit 0, A.lit 1] ∧ b ∈ [A.lit (-1), A.lit 0, A.lit 1]
      ∧ c ∈ [A.lit (-1), A.lit 0, A.lit 1] ∧ d ∈ [A.lit (-1), A.lit 0, A.lit 1] := by
  have hm := count_one_get_mem _ k h
  generalize (moveBindings A).get k = v at hm
  simp only [moveBindings, List.mem_cons, Prod.mk.injEq, List.mem_singleton,
    List.not_mem_nil, or_false] at hm
  rcases hm with h | h | h | h | h | h | h | h | h | h | h | h | h | h | h | h | h | h | h | h <;>
    exact ⟨_, _, _, _, h.2, by simp, by simp, by simp, by simp⟩

/-- A cycle keeps the components of the intent among the constants -1, 0, 1. -/
theorem loopBody_intent_unit {F : Type} (A : FloatArith F) (s : State F) (k : Char)
    (hx : s.x ∈ [A.lit (-1), A.lit 0, A.lit 1]) (hy : s.y ∈ [A.lit (-1), A.lit 0, A.lit 1])
    (hz : s.z ∈ [A.lit (-1), A.lit 0, A.lit 1]) (ht : s.th ∈ [A.lit (-1), A.lit 0, A.lit 1]) :
    (loopBody A s k).state.x ∈ [A.lit (-1), A.lit 0, A.lit 1]
      ∧ (loopBody A s k).state.y ∈ [A.lit (-1), A.lit 0, A.lit 1]
      ∧ (loopBody A s k).state.z ∈ [A.lit (-1), A.lit 0, A.lit 1]
      ∧ (loopBody A s k).state.th ∈ [A.lit (-1), A.lit 0, A.lit 1] := by
  rcases keyBranch_classify A k with h | h | h | h | h
  · have hb := keyBranch_move A s k h.1
    obtain ⟨a, b, c, d, hv, ha, hb2, hc, hd⟩ := moveBindings_unit A k h.1
    rw [loopBody_of_running A s k (by rw [hb]), hb, hv]
    exact ⟨ha, hb2, hc, hd⟩
  · have hb := keyBranch_speed A s k h.1
    rw [loopBody_of_running A s k (by rw [hb]), hb]
    exact ⟨hx, hy, hz, ht⟩
  · have hb := keyBranch_relay A s
    rw [h, loopBody_of_running A s 'r' (by rw [hb]), hb]
    exact ⟨hx, hy, hz, ht⟩
  · rw [h, loopBody_quit]
    simp
  · have hb := keyBranch_other A s k h.1 h.2.1 h.2.2.1 h.2.2.2
    rw [loopBody_of_running A s k (by rw [hb]), hb]
    simp

theorem mainLoop_intent_unit {F : Type} (A : FloatArith F) : ∀ (keys : List Char) (s : State F),
    s.x ∈ [A.lit (-1), A.lit 0, A.lit 1] → s.y ∈ [A.lit (-1), A.lit 0, A.lit 1] →
    s.z ∈ [A.lit (-1), A.lit 0, A.lit 1] → s.th ∈ [A.lit (-1), A.lit 0, A.lit 1] →
    (mainLoop A s keys).final.x ∈ [A.lit (-1), A.lit 0, A.lit 1]
      ∧ (mainLoop A s keys).final.y ∈ [A.lit (-1), A.lit 0, A.lit 1]
      ∧ (mainLoop A s keys).final.z ∈ [A.lit (-1), A.lit 0, A.lit 1]
      ∧ (mainLoop A s keys).final.th ∈ [A.lit (-1), A.lit 0, A.lit 1]
  | [], _, hx, hy, hz, ht => ⟨hx, hy, hz, ht⟩
  | k :: rest, s, hx, hy, hz, ht => by
    obtain ⟨h1, h2, h3, h4⟩ := loopBody_intent_unit A s k hx hy hz ht
    by_cases hk : k = quitKey
    · subst hk
      rw [mainLoop_cons_quit]
      simp
    · rw [mainLoop_cons_running A s k rest hk]
      exact mainLoop_intent_unit A rest _ h1 h2 h3 h4

/-- C15: the movement table has 20 entries with pairwise distinct keys; the
vector of every key has four components, each -1, 0 or 1; and in the state
after any key sequence run from the initial state each of `x`, `y`, `z`, `th`
is -1, 0 or 1 (stated for any arithmetic with the constants as stored, and for
exact arithmetic with the numbers themselves). -/
theorem intent_components_unit :
    (∀ (F : Type) (A : FloatArith F),
        (moveBindings A).length = 20
          ∧ ((moveBindings A).map Prod.fst).Nodup
          ∧ (∀ k : Char, (moveBindings A).count k = 1 →
              ∃ a b c d, (moveBindings A).get k = [a, b, c, d]
                ∧ a ∈ [A.lit (-1), A.lit 0, A.lit 1] ∧ b ∈ [A.lit (-1), A.lit 0, A.lit 1]
                ∧ c ∈ [A.lit (-1), A.lit 0, A.lit 1] ∧ d ∈ [A.lit (-1), A.lit 0, A.lit 1])
          ∧ (∀ keys : List Char,
              (mainLoop A (initState A) keys).final.x ∈ [A.lit (-1), A.lit 0, A.lit 1]
                ∧ (mainLoop A (initState A) keys).final.y ∈ [A.lit (-1), A.lit 0, A.lit 1]
                ∧ (mainLoop A (initState A) keys).final.z ∈ [A.lit (-1), A.lit 0, A.lit 1]
                ∧ (mainLoop A (initState A) keys).final.th ∈ [A.lit (-1), A.lit 0, A.lit 1]))
      ∧ (∀ keys : List Char,
          (mainLoop exactArith (initState exactArith) keys).final.x ∈ ([-1, 0, 1] : List ℚ)
            ∧ (mainLoop exactArith (initState exactArith) keys).final.y ∈ ([-1, 0, 1] : List ℚ)
            ∧ (mainLoop exactArith (initState exactArith) keys).final.z ∈ ([-1, 0, 1] : List ℚ)
            ∧ (mainLoop exactArith (initState exactArith) keys).final.th
                ∈ ([-1, 0, 1] : List ℚ)) := by
  have hinit : ∀ (F : Type) (A : FloatArith F) (keys : List Char),
      (mainLoop A (initState A) keys).final.x ∈ [A.lit (-1), A.lit 0, A.lit 1]
        ∧ (mainLoop A (initState A) keys).final.y ∈ [A.lit (-1), A.lit 0, A.lit 1]
        ∧ (mainLoop A (initState A) keys).final.z ∈ [A.lit (-1), A.lit 0, A.lit 1]
        ∧ (mainLoop A (initState A) keys).final.th ∈ [A.lit (-1), A.lit 0, A.lit 1] := by
    intro F A keys
    apply mainLoop_intent_unit A keys (initState A) <;> simp [initState]
  refine ⟨fun F A => ⟨rfl, ?_, fun k hk => moveBindings_unit A k hk, hinit F A⟩,
    fun keys => hinit ℚ exactArith keys⟩
  simp only [moveBindings, List.map_cons, List.map_nil]
  decide

/-- C16: for each pair of an unshifted movement key and its shifted key (i/I,
o/O, j/J, l/L, u/U, m/M, k/K, `,`/`<`, `.`/`>`) both keys are in the table, the
shifted key has turn 0 and the forward component of the unshifted key, and its
strafe component is nonzero exactly when the turn component of the unshifted
key is nonzero; for a letter the shifted key is the upper-case letter; `k` and
`K` both have the all-zero vector (exact arithmetic). -/
theorem shifted_key_strafes (lo up : Char)
    (h : (lo, up) ∈ [('i', 'I'), ('o', 'O'), ('j', 'J'), ('l', 'L'), ('u', 'U'), ('m', 'M'),
      ('k', 'K'), (',', '<'), ('.', '>')]) :
    (moveBindings exactArith).count lo = 1
      ∧ (moveBindings exactArith).count up = 1
      ∧ turnOf exactArith up = 0
      ∧ forwardOf exactArith up = forwardOf exactArith lo
      ∧ (strafeOf exactArith up ≠ 0 ↔ turnOf exactArith lo ≠ 0)
      ∧ (lo.isLower = true → up = lo.toUpper)
      ∧ (moveBindings exactArith).get 'k' = [0, 0, 0, 0]
      ∧ (moveBindings exactArith).get 'K' = [0, 0, 0, 0] := by
  simp only [List.mem_cons, Prod.mk.injEq, List.mem_singleton, List.not_mem_nil,
    or_false] at h
  rcases h with h | h | h | h | h | h | h | h | h <;> obtain ⟨rfl, rfl⟩ := h <;>
    refine ⟨?_, ?_, ?_, ?_, ?_, by decide, ?_, ?_⟩ <;>
    simp [Bindings.count, Bindings.get, moveBindings, List.lookup, vecAt, exactArith,
      turnOf, forwardOf, strafeOf]

/-- The pair `o`/`O`: `o` is (1,0,0,-1), `O` is (1,-1,0,0). -/
theorem shifted_key_strafes_witness :
    (moveBindings exactArith).get 'o' = [1, 0, 0, -1]
      ∧ (moveBindings exactArith).get 'O' = [1, -1, 0, 0]
      ∧ turnOf exactArith 'O' = 0
      ∧ forwardOf exactArith 'O' = forwardOf exactArith 'o'
      ∧ (strafeOf exactArith 'O' ≠ 0 ↔ turnOf exactArith 'o' ≠ 0) :=
  have h := shifted_key_strafes 'o' 'O' (by simp)
  ⟨by simp [Bindings.get, moveBindings, List.lookup, exactArith],
   by simp [Bindings.get, moveBindings, List.lookup, exactArith],
   h.2.2.1, h.2.2.2.1, h.2.2.2.2.1⟩

/-- C17 (as stated, refuted): `t` is a lower-case letter of the movement
table and its vertical component is 1, not 0 (and `b` has -1). -/
theorem lowercase_planar_counterexample :
    ('t').isLower = true
      ∧ (moveBindings exactArith).count 't' = 1
      ∧ (moveBindings exactArith).get 't' = [0, 0, 1, 0]
      ∧ verticalOf exactArith 't' = 1
      ∧ verticalOf exactArith 't' ≠ 0
      ∧ verticalOf exactArith 'b' = -1 := by
  refine ⟨by decide, ?_, ?_, ?_, ?_, ?_⟩ <;>
    simp [Bindings.count, Bindings.get, moveBindings, List.lookup, vecAt, exactArith,
      verticalOf]

/-- C17 (amended): for every lower-case letter of the movement table the
strafe component is 0; the vertical component is 0 too unless the key is `t`
or `b`, whose vectors are the vertical-only (0,0,1,0) and (0,0,-1,0) (exact
arithmetic). -/
theorem lowercase_no_strafe (k : Char) (hl : k.isLower = true)
    (hm : (moveBindings exactArith).count k = 1) :
    strafeOf exactArith k = 0
      ∧ ((k = 't' ∧ (moveBindings exactArith).get k = [0, 0, 1, 0])
          ∨ (k = 'b' ∧ (moveBindings exactArith).get k = [0, 0, -1, 0])
          ∨ (k ≠ 't' ∧ k ≠ 'b' ∧ verticalOf exactArith k = 0))
      ∧ k ∈ ['i', 'o', 'j', 'l', 'u', 'm', 't', 'b', 'k'] := by
  have hmem := count_one_get_mem _ k hm
  generalize hv : (moveBindings exactArith).get k = v at hmem
  simp only [moveBindings, List.mem_cons, Prod.mk.injEq, List.mem_singleton,
    List.not_mem_nil, or_false] at hmem
  rcases hmem with h | h | h | h | h | h | h | h | h | h | h | h | h | h | h | h | h | h | h | h <;>
    obtain ⟨rfl, rfl⟩ := h <;>
    first
      | exact absurd hl (by decide)
      | (simp [Bindings.get, moveBindings, List.lookup, vecAt, exactArith, strafeOf,
          verticalOf])

/-- The lower-case key `o` has vector (1,0,0,-1): strafe 0 and vertical 0. -/
theorem lowercase_no_strafe_witness :
    ('o').isLower = true
      ∧ (moveBindings exactArith).count 'o' = 1
      ∧ strafeOf exactArith 'o' = 0
      ∧ verticalOf exactArith 'o' = 0 := by
  have hl : ('o').isLower = true := by decide
  have hm : (moveBindings exactArith).count 'o' = 1 := by
    simp [Bindings.count, moveBindings, List.lookup]
  obtain ⟨h1, h2, -⟩ := lowercase_no_strafe 'o' hl hm
  refine ⟨hl, hm, h1, ?_⟩
  rcases h2 with h | h | h
  · exact absurd h.1 (by decide)
  · exact absurd h.1 (by decide)
  · exact h.2.2

/-! ## Speeds in exact arithmetic: closed form -/

theorem speedBindings_count_of_mem {F : Type} (A : FloatArith F) (c : Char)
    (h : c ∈ ['q', 'z', 'w', 'x', 'e', 'c']) : (speedBindings A).count c = 1 := by
  simp only [List.mem_cons, List.mem_singleton, List.not_mem_nil, or_false] at h
  rcases h with h | h | h | h | h | h <;>
    (rw [h]; simp [Bindings.count, speedBindings, List.lookup])

/-- In exact arithmetic, what a cycle does to the two speeds, key by key. -/
theorem loopBody_speed_cases (s : State ℚ) (k : Char) :
    (k = 'q' ∧ (loopBody exactArith s k).state.speed = s.speed * (11 / 10)
        ∧ (loopBody exactArith s k).state.turn = s.turn * (11 / 10))
    ∨ (k = 'z' ∧ (loopBody exactArith s k).state.speed = s.speed * (9 / 10)
        ∧ (loopBody exactArith s k).state.turn = s.turn * (9 / 10))
    ∨ (k = 'w' ∧ (loopBody exactArith s k).state.speed = s.speed * (11 / 10)
        ∧ (loopBody exactArith s k).state.turn = s.turn)
    ∨ (k = 'x' ∧ (loopBody exactArith s k).state.speed = s.speed * (9 / 10)
        ∧ (loopBody exactArith s k).state.turn = s.turn)
    ∨ (k = 'e' ∧ (loopBody exactArith s k).state.speed = s.speed
        ∧ (loopBody exactArith s k).state.turn = s.turn * (11 / 10))
    ∨ (k = 'c' ∧ (loopBody exactArith s k).state.speed = s.speed
        ∧ (loopBody exactArith s k).state.turn = s.turn * (9 / 10))
    ∨ (k ∉ ['q', 'z', 'w', 'x', 'e', 'c'] ∧ (loopBody exactArith s k).state.speed = s.speed
        ∧ (loopBody exactArith s k).state.turn = s.turn) := by
  have hnot : (speedBindings exactArith).count k = 0 → k ∉ ['q', 'z', 'w', 'x', 'e', 'c'] := by
    intro h0 hmem
    rw [speedBindings_count_of_mem exactArith k hmem] at h0
    exact absurd h0 (by decide)
  rcases keyBranch_classify exactArith k with h | h | h | h | h
  · have hb := keyBranch_move exactArith s k h.1
    have h0 : (speedBindings exactArith).count k = 0 := by
      rcases count_zero_or_one (speedBindings exactArith) k with h0 | h1
      · exact h0
      · rw [speed_key_not_move exactArith k h1] at h
        exact absurd h.1 (by decide)
    rw [loopBody_of_running exactArith s k (by rw [hb]), hb]
    exact Or.inr (Or.inr (Or.inr (Or.inr (Or.inr (Or.inr ⟨hnot h0, rfl, rfl⟩)))))
  · have hb := keyBranch_speed exactArith s k h.1
    rw [loopBody_of_running exactArith s k (by rw [hb]), hb]
    rcases speedBindings_cases exactArith k h.1 with c | c | c | c | c | c <;>
      rw [c.2] <;> simp [vecAt, exactArith, c.1]
  · have hb := keyBranch_relay exactArith s
    rw [h, loopBody_of_running exactArith s 'r' (by rw [hb]), hb]
    exact Or.inr (Or.inr (Or.inr (Or.inr (Or.inr (Or.inr ⟨by decide, rfl, rfl⟩)))))
  · rw [h, loopBody_quit]
    exact Or.inr (Or.inr (Or.inr (Or.inr (Or.inr (Or.inr ⟨by decide, rfl, rfl⟩)))))
  · have hb := keyBranch_other exactArith s k h.1 h.2.1 h.2.2.1 h.2.2.2
    rw [loopBody_of_running exactArith s k (by rw [hb]), hb]
    exact Or.inr (Or.inr (Or.inr (Or.inr (Or.inr (Or.inr ⟨hnot h.2.1, rfl, rfl⟩)))))

/-- In exact arithmetic, the speeds after a run without quit sentinel, from
any state. -/
theorem mainLoop_speed_closed : ∀ (keys : List Char) (s : State ℚ), quitKey ∉ keys →
    (mainLoop exactArith s keys).final.speed
        = s.speed * (11 / 10) ^ (keys.count 'q' + keys.count 'w')
            * (9 / 10) ^ (keys.count 'z' + keys.count 'x')
      ∧ (mainLoop exactArith s keys).final.turn
        = s.turn * (11 / 10) ^ (keys.count 'q' + keys.count 'e')
            * (9 / 10) ^ (keys.count 'z' + keys.count 'c')
  | [], s, _ => by simp [mainLoop]
  | k :: rest, s, hq => by
    have hk : k ≠ quitKey := fun h => hq (by simp [h])
    have hrest : quitKey ∉ rest := fun h => hq (List.mem_cons_of_mem _ h)
    obtain ⟨ih1, ih2⟩ := mainLoop_speed_closed rest (loopBody exactArith s k).state hrest
    rw [mainLoop_cons_running exactArith s k rest hk]
    simp only [ih1, ih2]
    rcases loopBody_speed_cases s k with h | h | h | h | h | h | h
    all_goals obtain ⟨hk1, hs, ht⟩ := h
    all_goals rw [hs, ht]
    · subst hk1; refine ⟨?_, ?_⟩ <;> (simp [List.count_cons]; try ring)
    · subst hk1; refine ⟨?_, ?_⟩ <;> (simp [List.count_cons]; try ring)
    · subst hk1; refine ⟨?_, ?_⟩ <;> (simp [List.count_cons]; try ring)
    · subst hk1; refine ⟨?_, ?_⟩ <;> (simp [List.count_cons]; try ring)
    · subst hk1; refine ⟨?_, ?_⟩ <;> (simp [List.count_cons]; try ring)
    · subst hk1; refine ⟨?_, ?_⟩ <;> (simp [List.count_cons]; try ring)
    · simp only [List.mem_cons, List.mem_singleton, List.not_mem_nil, or_false, not_or] at hk1
      obtain ⟨n1, n2, n3, n4, n5, n6⟩ := hk1
      simp [List.count_cons, n1, n2, n3, n4, n5, n6]
theorem mainLoop_replicate_q (n : Nat) (s : State ℚ) :
    (mainLoop exactArith s (List.replicate n 'q')).final.speed = s.speed * (11 / 10) ^ n
      ∧ (mainLoop exactArith s (List.replicate n 'q')).final.turn = s.turn * (11 / 10) ^ n := by
  have hq : quitKey ∉ List.replicate n 'q' := by
    intro h
    exact absurd (List.eq_of_mem_replicate h) (by decide)
  obtain ⟨h1, h2⟩ := mainLoop_speed_closed _ s hq
  rw [h1, h2]
  simp [List.count_replicate]

theorem mainLoop_replicate_z (n : Nat) (s : State ℚ) :
    (mainLoop exactArith s (List.replicate n 'z')).final.speed = s.speed * (9 / 10) ^ n
      ∧ (mainLoop exactArith s (List.replicate n 'z')).final.turn = s.turn * (9 / 10) ^ n := by
  have hq : quitKey ∉ List.replicate n 'z' := by
    intro h
    exact absurd (List.eq_of_mem_replicate h) (by decide)
  obtain ⟨h1, h2⟩ := mainLoop_speed_closed _ s hq
  rw [h1, h2]
  simp [List.count_replicate]

/-! ## Growth of the speeds -/

/-- C18: in exact arithmetic the speeds are not clamped: for every bound
`B > 0` some number of `q` presses from the initial state takes both speeds
above `B`, and for every `eps > 0` some number of `z` presses takes both below
`eps`. -/
theorem speeds_unbounded (B eps : ℚ) (hB : 0 < B) (he : 0 < eps) :
    (∃ n : Nat,
        B < (mainLoop exactArith (initState exactArith) (List.replicate n 'q')).final.speed
          ∧ B < (mainLoop exactArith (initState exactArith) (List.replicate n 'q')).final.turn)
      ∧ (∃ n : Nat,
        (mainLoop exactArith (initState exactArith) (List.replicate n 'z')).final.speed < eps
          ∧ (mainLoop exactArith (initState exactArith) (List.replicate n 'z')).final.turn
              < eps) := by
  have hs0 : (initState exactArith).speed = 1 / 2 := rfl
  have ht0 : (initState exactArith).turn = 1 := rfl
  constructor
  · obtain ⟨n, hn⟩ := pow_unbounded_of_one_lt (2 * B) (by norm_num : (1 : ℚ) < 11 / 10)
    refine ⟨n, ?_⟩
    obtain ⟨h1, h2⟩ := mainLoop_replicate_q n (initState exactArith)
    rw [h1, h2, hs0, ht0]
    constructor <;> linarith
  · obtain ⟨n, hn⟩ := exists_pow_lt_of_lt_one he (by norm_num : (9 / 10 : ℚ) < 1)
    refine ⟨n, ?_⟩
    obtain ⟨h1, h2⟩ := mainLoop_replicate_z n (initState exactArith)
    have hp : (0 : ℚ) < (9 / 10) ^ n := by positivity
    rw [h1, h2, hs0, ht0]
    constructor <;> linarith

/-- With the bound 1 and the margin 1/4 both parts hold. -/
theorem speeds_unbounded_witness :
    (0 : ℚ) < 1 ∧ (0 : ℚ) < 1 / 4
      ∧ (∃ n : Nat,
        1 < (mainLoop exactArith (initState exactArith) (List.replicate n 'q')).final.speed
          ∧ 1 < (mainLoop exactArith (initState exactArith) (List.replicate n 'q')).final.turn)
      ∧ (∃ n : Nat,
        (mainLoop exactArith (initState exactArith) (List.replicate n 'z')).final.speed < 1 / 4
          ∧ (mainLoop exactArith (initState exactArith) (List.replicate n 'z')).final.turn
              < 1 / 4) :=
  ⟨by norm_num, by norm_num, speeds_unbounded 1 (1 / 4) (by norm_num) (by norm_num)⟩

/-- C19: in exact arithmetic, after every key sequence without quit sentinel
run from the initial state, `speed` is 0.5 * (11/10)^(#q + #w) * (9/10)^(#z + #x)
and `turn` is 1.0 * (11/10)^(#q + #e) * (9/10)^(#z + #c); so the final speeds
are the same for every reordering of the keys and are not changed by removing
the keys that are not speed keys. -/
theorem speeds_closed_form (keys : List Char) (hq : quitKey ∉ keys) :
    (mainLoop exactArith (initState exactArith) keys).final.speed
        = 1 / 2 * (11 / 10) ^ (keys.count 'q' + keys.count 'w')
            * (9 / 10) ^ (keys.count 'z' + keys.count 'x')
      ∧ (mainLoop exactArith (initState exactArith) keys).final.turn
        = 1 * (11 / 10) ^ (keys.count 'q' + keys.count 'e')
            * (9 / 10) ^ (keys.count 'z' + keys.count 'c')
      ∧ (∀ other : List Char, other.Perm keys →
          (mainLoop exactArith (initState exactArith) other).final.speed
              = (mainLoop exactArith (initState exactArith) keys).final.speed
            ∧ (mainLoop exactArith (initState exactArith) other).final.turn
              = (mainLoop exactArith (initState exactArith) keys).final.turn)
      ∧ (mainLoop exactArith (initState exactArith)
            (keys.filter (fun k => decide (k ∈ ['q', 'z', 'w', 'x', 'e', 'c'])))).final.speed
          = (mainLoop exactArith (initState exactArith) keys).final.speed
      ∧ (mainLoop exactArith (initState exactArith)
            (keys.filter (fun k => decide (k ∈ ['q', 'z', 'w', 'x', 'e', 'c'])))).final.turn
          = (mainLoop exactArith (initState exactArith) keys).final.turn := by
  obtain ⟨h1, h2⟩ := mainLoop_speed_closed keys (initState exactArith) hq
  have hf : quitKey ∉ keys.filter (fun k => decide (k ∈ ['q', 'z', 'w', 'x', 'e', 'c'])) :=
    fun h => hq (List.mem_of_mem_filter h)
  obtain ⟨f1, f2⟩ := mainLoop_speed_closed _ (initState exactArith) hf
  have hc : ∀ a : Char, a ∈ ['q', 'z', 'w', 'x', 'e', 'c'] →
      List.count a (keys.filter (fun k => decide (k ∈ ['q', 'z', 'w', 'x', 'e', 'c'])))
        = List.count a keys := by
    intro a ha
    exact List.count_filter (by simpa using ha)
  refine ⟨h1, h2, fun other hp => ?_, ?_, ?_⟩
  · have ho : quitKey ∉ other := fun h => hq (hp.subset h)
    obtain ⟨o1, o2⟩ := mainLoop_speed_closed other (initState exactArith) ho
    rw [o1, o2, h1, h2]
    simp [hp.count_eq]
  · rw [f1, h1, hc 'q' (by simp), hc 'w' (by simp), hc 'z' (by simp), hc 'x' (by simp)]
  · rw [f2, h2, hc 'q' (by simp), hc 'e' (by simp), hc 'z' (by simp), hc 'c' (by simp)]

/-- The keys `q i w z r 1 c` (one each of `q`, `w`, `z`, `c`): the speeds end at
0.5 * 1.1^2 * 0.9 = 0.5445 and 1.1 * 0.9^2 = 0.891. -/
theorem speeds_closed_form_witness :
    quitKey ∉ ['q', 'i', 'w', 'z', 'r', '1', 'c']
      ∧ (mainLoop exactArith (initState exactArith)
          ['q', 'i', 'w', 'z', 'r', '1', 'c']).final.speed = 1089 / 2000
      ∧ (mainLoop exactArith (initState exactArith)
          ['q', 'i', 'w', 'z', 'r', '1', 'c']).final.turn = 891 / 1000 := by
  have hq : quitKey ∉ ['q', 'i', 'w', 'z', 'r', '1', 'c'] := by decide
  obtain ⟨h1, h2, -⟩ := speeds_closed_form ['q', 'i', 'w', 'z', 'r', '1', 'c'] hq
  refine ⟨hq, ?_, ?_⟩
  · rw [h1]
    simp [List.count_cons]
    norm_num
  · rw [h2]
    simp [List.count_cons]
    norm_num

/-! ## Direction of the command -/

/-- C20: in exact arithmetic, for every velocity command published by a cycle
that starts in a state reached from the initial state, each of linear.x,
linear.y, linear.z, angular.z has the sign of the intent component `x`, `y`,
`z`, `th` it is computed from and is zero exactly when that component is zero,
and angular.x and angular.y are zero; and in any state, whatever the speeds,
the command published after `k`, `K` or an unrecognized key has all six fields
zero. -/
theorem command_sign_matches_intent (keys : List Char) (k : Char) (t : Twist ℚ)
    (h : Output.twistPub t ∈
      (loopBody exactArith (mainLoop exactArith (initState exactArith) keys).final k).outputs) :
    (SignType.sign t.linear.x = SignType.sign
          (loopBody exactArith (mainLoop exactArith (initState exactArith) keys).final k).state.x
        ∧ SignType.sign t.linear.y = SignType.sign
          (loopBody exactArith (mainLoop exactArith (initState exactArith) keys).final k).state.y
        ∧ SignType.sign t.linear.z = SignType.sign
          (loopBody exactArith (mainLoop exactArith (initState exactArith) keys).final k).state.z
        ∧ SignType.sign t.angular.z = SignType.sign
          (loopBody exactArith (mainLoop exactArith (initState exactArith) keys).final k).state.th)
      ∧ ((t.linear.x = 0 ↔
          (loopBody exactArith (mainLoop exactArith (initState exactArith) keys).final k).state.x
            = 0)
        ∧ (t.linear.y = 0 ↔
          (loopBody exactArith (mainLoop exactArith (initState exactArith) keys).final k).state.y
            = 0)
        ∧ (t.linear.z = 0 ↔
          (loopBody exactArith (mainLoop exactArith (initState exactArith) keys).final k).state.z
            = 0)
        ∧ (t.angular.z = 0 ↔
          (loopBody exactArith (mainLoop exactArith (initState exactArith) keys).final k).state.th
            = 0))
      ∧ t.angular.x = 0 ∧ t.angular.y = 0
      ∧ (∀ (s : State ℚ) (c : Char),
          (c = 'k' ∨ c = 'K' ∨ ((moveBindings exactArith).count c = 0
              ∧ (speedBindings exactArith).count c = 0 ∧ c ≠ 'r' ∧ c ≠ quitKey)) →
          twistsOf (loopBody exactArith s c).outputs = [⟨⟨0, 0, 0⟩, ⟨0, 0, 0⟩⟩]) := by
  have hinit : 0 < (initState exactArith).speed ∧ 0 < (initState exactArith).turn := by
    constructor
    · show (0 : ℚ) < 1 / 2
      norm_num
    · show (0 : ℚ) < 1
      norm_num
  obtain ⟨p1, p2⟩ := mainLoop_speeds_pos keys _ hinit.1 hinit.2
  obtain ⟨q1, q2⟩ := loopBody_speeds_pos _ k p1 p2
  rw [mem_twistsOf] at h
  have hk : k ≠ quitKey := by
    intro hk
    rw [hk, loopBody_quit] at h
    simp [twistsOf] at h
  rw [twistsOf_loopBody exactArith _ k hk, List.mem_singleton] at h
  subst h
  generalize (loopBody exactArith (mainLoop exactArith (initState exactArith) keys).final
    k).state = s2 at q1 q2
  refine ⟨?_, ?_, rfl, rfl, ?_⟩
  · refine ⟨?_, ?_, ?_, ?_⟩ <;>
      simp [twistOf, exactArith, sign_mul, sign_pos q1, sign_pos q2]
  · refine ⟨?_, ?_, ?_, ?_⟩ <;> simp [twistOf, exactArith, ne_of_gt q1, ne_of_gt q2]
  · intro s c hc
    rcases hc with hc | hc | hc
    · subst hc
      simp [loopBody, keyBranch, Bindings.count, Bindings.get, moveBindings, List.lookup,
        vecAt, exactArith, twistOf, twistsOf]
    · subst hc
      simp [loopBody, keyBranch, Bindings.count, Bindings.get, moveBindings, List.lookup,
        vecAt, exactArith, twistOf, twistsOf]
    · have hb := keyBranch_other exactArith s c hc.1 hc.2.1 hc.2.2.1 hc.2.2.2
      rw [loopBody_of_running exactArith s c (by rw [hb]), hb]
      simp [twistsOf, twistOf, exactArith]

/-- After `q`, the key `o` publishes linear (0.55, 0, 0), angular (0, 0, -1.1):
positive where the intent (1, 0, 0, -1) is positive, negative where it is
negative, zero where it is zero. -/
theorem command_sign_matches_intent_witness :
    Output.twistPub ⟨⟨11 / 20, 0, 0⟩, ⟨0, 0, -(11 / 10)⟩⟩ ∈
        (loopBody exactArith (mainLoop exactArith (initState exactArith) ['q']).final 'o').outputs
      ∧ SignType.sign (11 / 20 : ℚ) = SignType.sign
          (loopBody exactArith (mainLoop exactArith (initState exactArith) ['q']).final 'o').state.x
      ∧ SignType.sign (-(11 / 10) : ℚ) = SignType.sign
          (loopBody exactArith (mainLoop exactArith (initState exactArith) ['q']).final
            'o').state.th := by
  have hmem : Output.twistPub ⟨⟨11 / 20, 0, 0⟩, ⟨0, 0, -(11 / 10)⟩⟩ ∈
      (loopBody exactArith (mainLoop exactArith (initState exactArith) ['q']).final
        'o').outputs := by
    simp [mainLoop, loopBody, keyBranch, Bindings.count, Bindings.get, moveBindings,
      speedBindings, List.lookup, vecAt, exactArith, twistOf, initState]
    norm_num
  have h := command_sign_matches_intent ['q'] 'o' _ hmem
  exact ⟨hmem, h.1.1, h.1.2.2.2⟩

/-! ## Lemmas on binary32 rounding -/

theorem roundHalfEven_eq (r : ℚ) (n : ℤ) (h : |r - n| < 1 / 2) : roundHalfEven r = n := by
  rw [abs_lt] at h
  obtain ⟨h1, h2⟩ := h
  unfold roundHalfEven
  by_cases hn : (n : ℚ) ≤ r
  · have hf : ⌊r⌋ = n := by
      rw [Int.floor_eq_iff]
      constructor <;> linarith
    rw [hf, if_pos (by linarith)]
  · have hf : ⌊r⌋ = n - 1 := by
      rw [Int.floor_eq_iff]
      push_cast
      constructor <;> linarith
    rw [hf]
    push_cast
    rw [if_neg (by linarith), if_pos (by linarith)]
    ring

theorem roundHalfEven_pos (r : ℚ) (h : 1 / 2 < r) : 1 ≤ roundHalfEven r := by
  have hf0 : 0 ≤ ⌊r⌋ := Int.floor_nonneg.2 (by linarith)
  unfold roundHalfEven
  by_cases hf1 : 1 ≤ ⌊r⌋
  · split_ifs <;> omega
  · have hf : ⌊r⌋ = 0 := by omega
    rw [hf]
    simp only [Int.cast_zero, sub_zero]
    rw [if_neg (by linarith), if_pos h]
    norm_num

theorem int_log_two_eq (q : ℚ) (e : ℤ) (h1 : (2 : ℚ) ^ e ≤ q) (h2 : q < (2 : ℚ) ^ (e + 1)) :
    Int.log 2 q = e := by
  have hq : 0 < q := lt_of_lt_of_le (by positivity) h1
  have hb : 1 < 2 := by norm_num
  have a1 : e ≤ Int.log 2 q := by
    rw [← Int.zpow_le_iff_le_log hb hq]
    simpa using h1
  have a2 : Int.log 2 q < e + 1 := by
    rw [← Int.lt_zpow_iff_log_lt hb hq]
    simpa using h2
  omega

/-- Rounding of a magnitude in the normal range whose nearest multiple of the
spacing is known. -/
theorem roundMag_eq (neg : Bool) (q : ℚ) (e n : ℤ) (he : -126 ≤ e)
    (h1 : (2 : ℚ) ^ e ≤ q) (h2 : q < (2 : ℚ) ^ (e + 1))
    (hn : |q / (2 : ℚ) ^ (e - 23) - n| < 1 / 2)
    (hfin : (n : ℚ) * (2 : ℚ) ^ (e - 23) < (2 : ℚ) ^ (128 : ℕ)) :
    roundMag neg q = F32.finite neg (n * (2 : ℚ) ^ (e - 23)) := by
  have hq : 0 < q := lt_of_lt_of_le (by positivity) h1
  unfold roundMag
  rw [if_neg (ne_of_gt hq), int_log_two_eq q e h1 h2, max_eq_left he,
    roundHalfEven_eq _ n hn, if_neg (not_le.2 hfin)]

theorem binary32_mul (a b : F32) : binary32.mul a b = F32.mul a b := rfl

theorem binary32_lit_of_nonneg (q : ℚ) (h : 0 ≤ q) : binary32.lit q = roundMag false q := by
  show roundMag (decide (q < 0)) |q| = roundMag false q
  rw [abs_of_nonneg h, decide_eq_false (not_lt.2 h)]

theorem binary32_lit_of_neg (q : ℚ) (h : q < 0) : binary32.lit q = roundMag true (-q) := by
  show roundMag (decide (q < 0)) |q| = roundMag true (-q)
  rw [abs_of_neg h, decide_eq_true h]

theorem binary32_lit_zero : binary32.lit 0 = F32.finite false 0 := by
  rw [binary32_lit_of_nonneg 0 le_rfl]
  simp [roundMag]

theorem binary32_lit_one : binary32.lit 1 = F32.finite false 1 := by
  rw [binary32_lit_of_nonneg 1 (by norm_num),
    roundMag_eq false 1 0 8388608 (by norm_num) (by norm_num) (by norm_num) (by norm_num)
      (by norm_num)]
  norm_num

theorem binary32_lit_neg_one : binary32.lit (-1) = F32.finite true 1 := by
  rw [binary32_lit_of_neg (-1) (by norm_num), neg_neg,
    roundMag_eq true 1 0 8388608 (by norm_num) (by norm_num) (by norm_num) (by norm_num)
      (by norm_num)]
  norm_num

theorem binary32_lit_half : binary32.lit (1 / 2) = F32.finite false (1 / 2) := by
  rw [binary32_lit_of_nonneg (1 / 2) (by norm_num),
    roundMag_eq false (1 / 2) (-1) 8388608 (by norm_num) (by norm_num) (by norm_num)
      (by norm_num) (by norm_num)]
  norm_num

/-- The constant 1.1 as a `float` is 9227469 / 2^23 = 1.10000002384185791015625. -/
theorem binary32_lit_11_10 : binary32.lit (11 / 10) = F32.finite false (9227469 / 8388608) := by
  rw [binary32_lit_of_nonneg (11 / 10) (by norm_num),
    roundMag_eq false (11 / 10) 0 9227469 (by norm_num) (by norm_num) (by norm_num)
      (by rw [abs_lt]; constructor <;> norm_num) (by norm_num)]
  norm_num

/-- The constant 0.9 as a `float` is 15099494 / 2^24 = 0.89999997615814208984375. -/
theorem binary32_lit_9_10 : binary32.lit (9 / 10) = F32.finite false (7549747 / 8388608) := by
  rw [binary32_lit_of_nonneg (9 / 10) (by norm_num),
    roundMag_eq false (9 / 10) (-1) 15099494 (by norm_num) (by norm_num) (by norm_num)
      (by rw [abs_lt]; constructor <;> norm_num) (by norm_num)]
  norm_num

/-- The number 0.55 as a `float` is 9227469 / 2^24 = 0.550000011920928955078125. -/
theorem binary32_lit_11_20 : binary32.lit (11 / 20) = F32.finite false (9227469 / 16777216) := by
  rw [binary32_lit_of_nonneg (11 / 20) (by norm_num),
    roundMag_eq false (11 / 20) (-1) 9227469 (by norm_num) (by norm_num) (by norm_num)
      (by rw [abs_lt]; constructor <;> norm_num) (by norm_num)]
  norm_num

/-- A finite product whose exact value is a binary32 value in the normal range
is that value. -/
theorem F32_mul_exact (s t : Bool) (a b : ℚ) (e n : ℤ) (he : -126 ≤ e)
    (h1 : (2 : ℚ) ^ e ≤ a * b) (h2 : a * b < (2 : ℚ) ^ (e + 1))
    (hn : a * b = n * (2 : ℚ) ^ (e - 23))
    (hfin : (n : ℚ) * (2 : ℚ) ^ (e - 23) < (2 : ℚ) ^ (128 : ℕ)) :
    F32.mul (F32.finite s a) (F32.finite t b) = F32.finite (xor s t) (a * b) := by
  have hp : (0 : ℚ) < (2 : ℚ) ^ (e - 23) := by positivity
  have hd : a * b / (2 : ℚ) ^ (e - 23) - n = 0 := by
    rw [hn, mul_div_assoc, div_self (ne_of_gt hp)]
    ring
  show roundMag (xor s t) (a * b) = _
  rw [roundMag_eq (xor s t) (a * b) e n he h1 h2 (by rw [hd]; norm_num) hfin, hn]

theorem F32_mul_zero_left (s t : Bool) (b : ℚ) :
    F32.mul (F32.finite s 0) (F32.finite t b) = F32.finite (xor s t) 0 := by
  show roundMag (xor s t) (0 * b) = _
  simp [roundMag]

/-- The `float` products of the scenario `i q r 1`: 0.5 * 1.1 is the `float`
0.55, 1 * 1.1 is the `float` 1.1, and a product with 1 or 0 is exact. -/
theorem binary32_scenario_products :
    binary32.mul (binary32.lit (1 / 2)) (binary32.lit (11 / 10)) = binary32.lit (11 / 20)
      ∧ binary32.mul (binary32.lit 1) (binary32.lit (11 / 10)) = binary32.lit (11 / 10)
      ∧ binary32.mul (binary32.lit 1) (binary32.lit (1 / 2)) = binary32.lit (1 / 2)
      ∧ binary32.mul (binary32.lit 1) (binary32.lit (11 / 20)) = binary32.lit (11 / 20)
      ∧ binary32.mul (binary32.lit 0) (binary32.lit (1 / 2)) = binary32.lit 0
      ∧ binary32.mul (binary32.lit 0) (binary32.lit 1) = binary32.lit 0
      ∧ binary32.mul (binary32.lit 0) (binary32.lit (11 / 20)) = binary32.lit 0
      ∧ binary32.mul (binary32.lit 0) (binary32.lit (11 / 10)) = binary32.lit 0 := by
  rw [binary32_lit_half, binary32_lit_11_10, binary32_lit_11_20, binary32_lit_one,
    binary32_lit_zero]
  simp only [binary32_mul]
  refine ⟨?_, ?_, ?_, ?_, F32_mul_zero_left _ _ _, F32_mul_zero_left _ _ _,
    F32_mul_zero_left _ _ _, F32_mul_zero_left _ _ _⟩
  · rw [F32_mul_exact false false _ _ (-1) 9227469 (by norm_num) (by norm_num) (by norm_num)
      (by norm_num) (by norm_num)]
    norm_num
  · rw [F32_mul_exact false false _ _ 0 9227469 (by norm_num) (by norm_num) (by norm_num)
      (by norm_num) (by norm_num)]
    norm_num
  · rw [F32_mul_exact false false _ _ (-1) 8388608 (by norm_num) (by norm_num) (by norm_num)
      (by norm_num) (by norm_num)]
    norm_num
  · rw [F32_mul_exact false false _ _ (-1) 9227469 (by norm_num) (by norm_num) (by norm_num)
      (by norm_num) (by norm_num)]
    norm_num

/-! ## Positive speeds in binary32 -/

theorem atLeastMin_isPositive (x : F32) (h : x.atLeastMin) : x.isPositive := by
  cases x with
  | finite neg mag =>
    exact ⟨h.1, lt_of_lt_of_le (by positivity) h.2⟩
  | inf neg => exact h
  | nan => exact h

/-- Rounding to nearest never takes a magnitude above half the least positive
value to zero. -/
theorem roundMag_atLeastMin (q : ℚ) (hq : (2 : ℚ) ^ (-150 : ℤ) < q) :
    (roundMag false q).atLeastMin := by
  have hq0 : 0 < q := lt_trans (by positivity) hq
  have he : -126 ≤ max (Int.log 2 q) (-126) := le_max_right _ _
  have hhalf : (2 : ℚ) ^ (max (Int.log 2 q) (-126) - 23) / 2 < q := by
    rcases le_total (Int.log 2 q) (-126) with hl | hl
    · rw [max_eq_right hl]
      have e : (2 : ℚ) ^ ((-126 : ℤ) - 23) / 2 = (2 : ℚ) ^ (-150 : ℤ) := by norm_num
      rw [e]
      exact hq
    · rw [max_eq_left hl]
      have h1 : (2 : ℚ) ^ (Int.log 2 q) ≤ q := by
        simpa using Int.zpow_log_le_self (b := 2) (by norm_num) hq0
      have h2 : (2 : ℚ) ^ (Int.log 2 q - 23) ≤ (2 : ℚ) ^ (Int.log 2 q) :=
        zpow_le_zpow_right₀ (by norm_num) (by omega)
      have h3 : (0 : ℚ) < (2 : ℚ) ^ (Int.log 2 q - 23) := by positivity
      linarith
  have hulp : (2 : ℚ) ^ (-149 : ℤ) ≤ (2 : ℚ) ^ (max (Int.log 2 q) (-126) - 23) :=
    zpow_le_zpow_right₀ (by norm_num) (by omega)
  unfold roundMag
  rw [if_neg (ne_of_gt hq0)]
  generalize (2 : ℚ) ^ (max (Int.log 2 q) (-126) - 23) = ulp at hhalf hulp ⊢
  have hulp0 : 0 < ulp := lt_of_lt_of_le (by positivity) hulp
  have hr : 1 / 2 < q / ulp := by
    rw [lt_div_iff₀ hulp0]
    linarith
  have hn : (1 : ℚ) ≤ (roundHalfEven (q / ulp) : ℚ) := by
    exact_mod_cast roundHalfEven_pos _ hr
  have hbig : (2 : ℚ) ^ (-149 : ℤ) ≤ (roundHalfEven (q / ulp) : ℚ) * ulp := by
    calc (2 : ℚ) ^ (-149 : ℤ) ≤ ulp := hulp
      _ = 1 * ulp := (one_mul ulp).symm
      _ ≤ (roundHalfEven (q / ulp) : ℚ) * ulp := mul_le_mul_of_nonneg_right hn hulp0.le
  split
  · exact rfl
  · exact ⟨rfl, hbig⟩

/-- A positive value times a finite constant above 1/2 is a positive value. -/
theorem mul_atLeastMin (x : F32) (c : ℚ) (hx : x.atLeastMin) (hc : 1 / 2 < c) :
    (F32.mul x (F32.finite false c)).atLeastMin := by
  cases x with
  | finite neg mag =>
    obtain ⟨hneg, hmag⟩ := hx
    subst hneg
    show (roundMag (xor false false) (mag * c)).atLeastMin
    apply roundMag_atLeastMin
    have e : (2 : ℚ) ^ (-150 : ℤ) = (2 : ℚ) ^ (-149 : ℤ) * (1 / 2) := by norm_num
    have hpos : (0 : ℚ) < (2 : ℚ) ^ (-149 : ℤ) := by positivity
    rw [e]
    calc (2 : ℚ) ^ (-149 : ℤ) * (1 / 2) < (2 : ℚ) ^ (-149 : ℤ) * c :=
          mul_lt_mul_of_pos_left hc hpos
      _ ≤ mag * c := mul_le_mul_of_nonneg_right hmag (by linarith)
  | inf neg =>
    have hneg : neg = false := hx
    subst hneg
    show (if c = 0 then F32.nan else F32.inf (xor false false)).atLeastMin
    rw [if_neg (by intro h; rw [h] at hc; norm_num at hc)]
    exact rfl
  | nan => exact absurd hx (by simp [F32.atLeastMin])

/-- In binary32 a cycle keeps positive speeds positive. -/
theorem loopBody_binary32_pos (s : State F32) (k : Char)
    (hs : s.speed.atLeastMin) (ht : s.turn.atLeastMin) :
    (loopBody binary32 s k).state.speed.atLeastMin
      ∧ (loopBody binary32 s k).state.turn.atLeastMin := by
  rcases keyBranch_classify binary32 k with h | h | h | h | h
  · have hb := keyBranch_move binary32 s k h.1
    rw [loopBody_of_running binary32 s k (by rw [hb]), hb]
    exact ⟨hs, ht⟩
  · have hb := keyBranch_speed binary32 s k h.1
    rw [loopBody_of_running binary32 s k (by rw [hb]), hb]
    rcases speedBindings_cases binary32 k h.1 with c | c | c | c | c | c <;>
      rw [c.2] <;>
      simp only [vecAt, List.getD_cons_zero, List.getD_cons_succ, binary32_lit_11_10,
        binary32_lit_9_10, binary32_lit_one, binary32_mul] <;>
      constructor <;> apply mul_atLeastMin <;> first | assumption | norm_num
  · have hb := keyBranch_relay binary32 s
    rw [h, loopBody_of_running binary32 s 'r' (by rw [hb]), hb]
    exact ⟨hs, ht⟩
  · rw [h, loopBody_quit]
    exact ⟨hs, ht⟩
  · have hb := keyBranch_other binary32 s k h.1 h.2.1 h.2.2.1 h.2.2.2
    rw [loopBody_of_running binary32 s k (by rw [hb]), hb]
    exact ⟨hs, ht⟩

/-- In binary32 a run from positive speeds ends with positive speeds. -/
theorem mainLoop_binary32_pos : ∀ (keys : List Char) (s : State F32),
    s.speed.atLeastMin → s.turn.atLeastMin →
    (mainLoop binary32 s keys).final.speed.atLeastMin
      ∧ (mainLoop binary32 s keys).final.turn.atLeastMin
  | [], _, hs, ht => ⟨hs, ht⟩
  | k :: rest, s, hs, ht => by
    by_cases hk : k = quitKey
    · subst hk
      rw [mainLoop_cons_quit]
      exact ⟨hs, ht⟩
    · rw [mainLoop_cons_running binary32 s k rest hk]
      obtain ⟨h1, h2⟩ := loopBody_binary32_pos s k hs ht
      exact mainLoop_binary32_pos rest _ h1 h2

theorem initState_binary32 :
    initState binary32
      = ⟨false, F32.finite false (1 / 2), F32.finite false 1, F32.finite false 0,
          F32.finite false 0, F32.finite false 0, F32.finite false 0⟩ := by
  simp only [initState, binary32_lit_half, binary32_lit_one, binary32_lit_zero]

/-! ## The scenario in any arithmetic -/

/-- The scenario `i q r 1 0x03` for any arithmetic, with every number written
as the program computes it. -/
theorem scenario_generic {F : Type} (A : FloatArith F) :
    statesAfter A (initState A) ['i', 'q', 'r', '1']
        = scenarioStates (A.lit 0) (A.lit 1) (A.lit (1 / 2))
            (A.mul (A.lit (1 / 2)) (A.lit (11 / 10))) (A.mul (A.lit 1) (A.lit (11 / 10)))
      ∧ (mainLoop A (initState A) ['i', 'q', 'r', '1', quitKey]).outputs
        = [ Output.printLast (A.lit (1 / 2)) (A.lit 1) 'i',
            Output.twistPub
              ⟨⟨A.mul (A.lit 1) (A.lit (1 / 2)), A.mul (A.lit 0) (A.lit (1 / 2)),
                  A.mul (A.lit 0) (A.lit (1 / 2))⟩,
                ⟨A.lit 0, A.lit 0, A.mul (A.lit 0) (A.lit 1)⟩⟩,
            Output.printLast (A.mul (A.lit (1 / 2)) (A.lit (11 / 10)))
              (A.mul (A.lit 1) (A.lit (11 / 10))) 'q',
            Output.twistPub
              ⟨⟨A.mul (A.lit 1) (A.mul (A.lit (1 / 2)) (A.lit (11 / 10))),
                  A.mul (A.lit 0) (A.mul (A.lit (1 / 2)) (A.lit (11 / 10))),
                  A.mul (A.lit 0) (A.mul (A.lit (1 / 2)) (A.lit (11 / 10)))⟩,
                ⟨A.lit 0, A.lit 0, A.mul (A.lit 0) (A.mul (A.lit 1) (A.lit (11 / 10)))⟩⟩,
            Output.relayPub true,
            Output.espeakPub "motors engaged",
            Output.twistPub
              ⟨⟨A.mul (A.lit 1) (A.mul (A.lit (1 / 2)) (A.lit (11 / 10))),
                  A.mul (A.lit 0) (A.mul (A.lit (1 / 2)) (A.lit (11 / 10))),
                  A.mul (A.lit 0) (A.mul (A.lit (1 / 2)) (A.lit (11 / 10)))⟩,
                ⟨A.lit 0, A.lit 0, A.mul (A.lit 0) (A.mul (A.lit 1) (A.lit (11 / 10)))⟩⟩,
            Output.printInvalid (A.mul (A.lit (1 / 2)) (A.lit (11 / 10)))
              (A.mul (A.lit 1) (A.lit (11 / 10))) '1',
            Output.twistPub
              ⟨⟨A.mul (A.lit 0) (A.mul (A.lit (1 / 2)) (A.lit (11 / 10))),
                  A.mul (A.lit 0) (A.mul (A.lit (1 / 2)) (A.lit (11 / 10))),
                  A.mul (A.lit 0) (A.mul (A.lit (1 / 2)) (A.lit (11 / 10)))⟩,
                ⟨A.lit 0, A.lit 0, A.mul (A.lit 0) (A.mul (A.lit 1) (A.lit (11 / 10)))⟩⟩,
            Output.printShutdown ]
      ∧ (mainLoop A (initState A) ['i', 'q', 'r', '1', quitKey]).exitCode = some 0 := by
  refine ⟨?_, ?_, ?_⟩
  · simp [statesAfter, loopBody, keyBranch, Bindings.count, Bindings.get, moveBindings,
      speedBindings, List.lookup, vecAt, initState, quitKey, scenarioStates]
  · simp [mainLoop, loopBody, keyBranch, Bindings.count, Bindings.get, moveBindings,
      speedBindings, List.lookup, vecAt, initState, quitKey, twistOf]
  · simp [mainLoop, loopBody, keyBranch, Bindings.count, Bindings.get, moveBindings,
      speedBindings, List.lookup, vecAt, initState, quitKey]

/-- Given the five bytes on the terminal and at least five cycles, `main`
returns 0 having written what the loop writes on the five keys. -/
theorem scenario_main {F : Type} (K : TermiosConsts) (A : FloatArith F) (attrs : Termios)
    (n : Nat) :
    (main K A (5 + n) ⟨attrs, [105, 113, 114, 49, 3]⟩).session.exitCode = some 0
      ∧ (main K A (5 + n) ⟨attrs, [105, 113, 114, 49, 3]⟩).session.outputs
          = (mainLoop A (initState A) ['i', 'q', 'r', '1', quitKey]).outputs := by
  obtain ⟨-, h2, h3⟩ :=
    mainLoopTty_eq K A (5 + n) (initState A) ⟨attrs, [105, 113, 114, 49, 3]⟩
  have e : 5 + n = n + 1 + 1 + 1 + 1 + 1 := by omega
  have hk : keysOf K (5 + n) ⟨attrs, [105, 113, 114, 49, 3]⟩
      = ['i', 'q', 'r', '1', quitKey] ++ List.replicate n (Char.ofNat 255) := by
    rw [e, keysOf_cons, keysOf_cons, keysOf_cons, keysOf_cons, keysOf_cons, keysOf_nil]
    rfl
  rw [hk] at h2 h3
  show (mainLoopTty K A (5 + n) (initState A) _).exitCode = some 0
    ∧ (mainLoopTty K A (5 + n) (initState A) _).outputs = _
  rw [h2, h3]
  simp [mainLoop, loopBody, keyBranch, Bindings.count, Bindings.get, moveBindings,
    speedBindings, List.lookup, vecAt, initState, quitKey]

/-! ## The two ends of the binary32 range -/

/-- Rounding of a magnitude in the subnormal range whose nearest multiple of
`2 ^ (-149)` is known. -/
theorem roundMag_eq_subnormal (neg : Bool) (q : ℚ) (n : ℤ) (h0 : 0 < q)
    (h1 : q < (2 : ℚ) ^ (-126 : ℤ)) (hn : |q / (2 : ℚ) ^ (-149 : ℤ) - n| < 1 / 2)
    (hfin : (n : ℚ) * (2 : ℚ) ^ (-149 : ℤ) < (2 : ℚ) ^ (128 : ℕ)) :
    roundMag neg q = F32.finite neg (n * (2 : ℚ) ^ (-149 : ℤ)) := by
  have hlog : Int.log 2 q < -126 := by
    rw [← Int.lt_zpow_iff_log_lt (by norm_num) h0]
    simpa using h1
  have he : max (Int.log 2 q) (-126) - 23 = -149 := by
    rw [max_eq_right (le_of_lt hlog)]
    norm_num
  unfold roundMag
  rw [if_neg (ne_of_gt h0), he, roundHalfEven_eq _ n hn, if_neg (not_le.2 hfin)]

theorem floor_le_roundHalfEven (r : ℚ) : ⌊r⌋ ≤ roundHalfEven r := by
  unfold roundHalfEven
  split_ifs <;> omega

/-- A magnitude of `2 ^ 128` or more rounds to the infinity. -/
theorem roundMag_overflow (neg : Bool) (q : ℚ) (hq : (2 : ℚ) ^ (128 : ℕ) ≤ q) :
    roundMag neg q = F32.inf neg := by
  have hq0 : 0 < q := lt_of_lt_of_le (by positivity) hq
  have h128 : (128 : ℤ) ≤ Int.log 2 q := by
    rw [← Int.zpow_le_iff_le_log (by norm_num) hq0]
    exact_mod_cast hq
  have he : max (Int.log 2 q) (-126) = Int.log 2 q := max_eq_left (by omega)
  have hlow : (2 : ℚ) ^ (Int.log 2 q) ≤ q := by
    simpa using Int.zpow_log_le_self (b := 2) (by norm_num) hq0
  have hsplit : (2 : ℚ) ^ (Int.log 2 q) = 8388608 * (2 : ℚ) ^ (Int.log 2 q - 23) := by
    have e23 : (8388608 : ℚ) = (2 : ℚ) ^ (23 : ℤ) := by norm_num
    rw [e23, ← zpow_add₀ (by norm_num)]
    congr 1
    omega
  have h2 : (2 : ℚ) ^ (128 : ℕ) ≤ (2 : ℚ) ^ (Int.log 2 q) := by
    rw [← zpow_natCast]
    exact zpow_le_zpow_right₀ (by norm_num) (by exact_mod_cast h128)
  unfold roundMag
  rw [if_neg (ne_of_gt hq0), he]
  generalize (2 : ℚ) ^ (Int.log 2 q - 23) = ulp at hsplit ⊢
  generalize (2 : ℚ) ^ (Int.log 2 q) = top at hsplit hlow h2
  have hulp : 0 < ulp := by
    have : (0 : ℚ) < top := lt_of_lt_of_le (by positivity) h2
    rw [hsplit] at this
    linarith
  have hquot : ((8388608 : ℤ) : ℚ) ≤ q / ulp := by
    rw [le_div_iff₀ hulp]
    push_cast
    rw [← hsplit]
    exact hlow
  have hn : (8388608 : ℤ) ≤ roundHalfEven (q / ulp) :=
    le_trans (Int.le_floor.2 hquot) (floor_le_roundHalfEven _)
  have hnq : (8388608 : ℚ) ≤ (roundHalfEven (q / ulp) : ℚ) := by
    exact_mod_cast hn
  have hbig : (2 : ℚ) ^ (128 : ℕ) ≤ (roundHalfEven (q / ulp) : ℚ) * ulp :=
    calc (2 : ℚ) ^ (128 : ℕ) ≤ top := h2
      _ = 8388608 * ulp := hsplit
      _ ≤ _ := mul_le_mul_of_nonneg_right hnq hulp.le
  rw [if_pos hbig]

/-- The two ends of the range in the model, as on the machine: once `speed` is
down at 2^-147 a further `z` leaves it there (0.9 * 4 = 3.6 rounds to 4 units
of 2^-149), and from the largest finite value a further `q` gives the positive
infinity, which further `q` and `z` leave as it is. -/
theorem binary32_range_ends :
    binary32.mul (F32.finite false ((2 : ℚ) ^ (-147 : ℤ))) (binary32.lit (9 / 10))
        = F32.finite false ((2 : ℚ) ^ (-147 : ℤ))
      ∧ binary32.mul (F32.finite false (340282346638528859811704183484516925440))
          (binary32.lit (11 / 10)) = F32.inf false
      ∧ binary32.mul (F32.inf false) (binary32.lit (11 / 10)) = F32.inf false
      ∧ binary32.mul (F32.inf false) (binary32.lit (9 / 10)) = F32.inf false := by
  rw [binary32_lit_9_10, binary32_lit_11_10]
  simp only [binary32_mul]
  refine ⟨?_, ?_, ?_, ?_⟩
  · show roundMag (xor false false) _ = _
    rw [roundMag_eq_subnormal _ _ 4 (by positivity) (by norm_num)
      (by rw [abs_lt]; constructor <;> norm_num) (by norm_num)]
    norm_num
  · show roundMag (xor false false) _ = _
    rw [roundMag_overflow _ _ (by norm_num)]
    rfl
  · show (if (9227469 / 8388608 : ℚ) = 0 then F32.nan else F32.inf (xor false false)) = _
    rw [if_neg (by norm_num)]
    rfl
  · show (if (7549747 / 8388608 : ℚ) = 0 then F32.nan else F32.inf (xor false false)) = _
    rw [if_neg (by norm_num)]
    rfl

/-! ## Positive speeds -/

/-- C9: the initial speeds are 0.5 and 1.0, and in the state the loop is in
after any sequence of keys, run from the initial state, `speed` and `turn` are
both strictly positive.  This holds in the `float` arithmetic of the program
(binary32: `v > 0` is true of the positive finite values and of the positive
infinity that repeated `q` ends in; rounding to nearest keeps the product of a
positive value with the constant 1.1, 1 or 0.9 at or above the least positive
value, so repeated `z` never reaches zero), and it holds in exact
arithmetic. -/
theorem speeds_stay_positive (keys : List Char) :
    (initState binary32).speed = F32.finite false (1 / 2)
      ∧ (initState binary32).turn = F32.finite false 1
      ∧ (mainLoop binary32 (initState binary32) keys).final.speed.isPositive
      ∧ (mainLoop binary32 (initState binary32) keys).final.turn.isPositive
      ∧ (initState exactArith).speed = 1 / 2
      ∧ (initState exactArith).turn = 1
      ∧ 0 < (mainLoop exactArith (initState exactArith) keys).final.speed
      ∧ 0 < (mainLoop exactArith (initState exactArith) keys).final.turn := by
  have b1 : (initState binary32).speed = F32.finite false (1 / 2) := binary32_lit_half
  have b2 : (initState binary32).turn = F32.finite false 1 := binary32_lit_one
  have bs : (initState binary32).speed.atLeastMin := by
    rw [b1]
    exact ⟨rfl, by norm_num⟩
  have bt : (initState binary32).turn.atLeastMin := by
    rw [b2]
    exact ⟨rfl, by norm_num⟩
  obtain ⟨h1, h2⟩ := mainLoop_binary32_pos keys _ bs bt
  have hs : 0 < (initState exactArith).speed := by
    show (0 : ℚ) < 1 / 2
    norm_num
  have ht : 0 < (initState exactArith).turn := by
    show (0 : ℚ) < 1
    norm_num
  exact ⟨b1, b2, atLeastMin_isPositive _ h1, atLeastMin_isPositive _ h2, rfl, rfl,
    mainLoop_speeds_pos keys _ hs ht⟩

/-! ## The concrete scenario -/

/-- C11: from the initial state (speeds 0.5 and 1.0, intent zero, relay
disengaged) the keys `i q r 1 0x03` give: after `i` intent (1,0,0,0) and
command (0.5,0,0 / 0,0,0); after `q` speeds 0.55 and 1.1, intent unchanged,
command (0.55,0,0 / 0,0,0); after `r` the relay engaged, announced as "motors
engaged"; after `1` intent (0,0,0,0) and command (0,0,0 / 0,0,0); after 0x03
the loop ends, and `main`, given these five bytes on the terminal and at least
five cycles, returns 0 having written exactly the same.  In the `float`
arithmetic of the program 0.55 and 1.1 are the binary32 values nearest to
them, 9227469/2^24 and 9227469/2^23, and the products 0.5 * 1.1 and 1 * 1.1
are exactly these; in exact arithmetic they are 11/20 and 11/10. -/
theorem scenario_i_q_r_1_quit :
    (initState binary32
        = ⟨false, F32.finite false (1 / 2), F32.finite false 1, F32.finite false 0,
            F32.finite false 0, F32.finite false 0, F32.finite false 0⟩
      ∧ statesAfter binary32 (initState binary32) ['i', 'q', 'r', '1']
          = scenarioStates (F32.finite false 0) (F32.finite false 1) (F32.finite false (1 / 2))
              (F32.finite false (9227469 / 16777216)) (F32.finite false (9227469 / 8388608))
      ∧ (mainLoop binary32 (initState binary32) ['i', 'q', 'r', '1', quitKey]).outputs
          = scenarioOutputs (F32.finite false 0) (F32.finite false 1)
              (F32.finite false (1 / 2)) (F32.finite false (9227469 / 16777216))
              (F32.finite false (9227469 / 8388608))
      ∧ (mainLoop binary32 (initState binary32) ['i', 'q', 'r', '1', quitKey]).exitCode
          = some 0
      ∧ binary32.lit (11 / 20) = F32.finite false (9227469 / 16777216)
      ∧ binary32.lit (11 / 10) = F32.finite false (9227469 / 8388608)
      ∧ (∀ (K : TermiosConsts) (attrs : Termios) (n : Nat),
          (main K binary32 (5 + n) ⟨attrs, [105, 113, 114, 49, 3]⟩).session.exitCode = some 0
            ∧ (main K binary32 (5 + n) ⟨attrs, [105, 113, 114, 49, 3]⟩).session.outputs
                = (mainLoop binary32 (initState binary32)
                    ['i', 'q', 'r', '1', quitKey]).outputs))
      ∧ (initState exactArith = ⟨false, 1 / 2, 1, 0, 0, 0, 0⟩
        ∧ statesAfter exactArith (initState exactArith) ['i', 'q', 'r', '1']
            = scenarioStates 0 1 (1 / 2) (11 / 20) (11 / 10)
        ∧ (mainLoop exactArith (initState exactArith) ['i', 'q', 'r', '1', quitKey]).outputs
            = scenarioOutputs 0 1 (1 / 2) (11 / 20) (11 / 10)
        ∧ (mainLoop exactArith (initState exactArith) ['i', 'q', 'r', '1', quitKey]).exitCode
            = some 0
        ∧ (∀ (K : TermiosConsts) (attrs : Termios) (n : Nat),
            (main K exactArith (5 + n) ⟨attrs, [105, 113, 114, 49, 3]⟩).session.exitCode
                = some 0
              ∧ (main K exactArith (5 + n) ⟨attrs, [105, 113, 114, 49, 3]⟩).session.outputs
                  = (mainLoop exactArith (initState exactArith)
                      ['i', 'q', 'r', '1', quitKey]).outputs)) := by
  obtain ⟨p1, p2, p3, p4, p5, p6, p7, p8⟩ := binary32_scenario_products
  obtain ⟨g1, g2, g3⟩ := scenario_generic binary32
  obtain ⟨x1, x2, x3⟩ := scenario_generic exactArith
  refine ⟨⟨initState_binary32, ?_, ?_, g3, binary32_lit_11_20, binary32_lit_11_10,
      fun K attrs n => scenario_main K binary32 attrs n⟩,
    ⟨rfl, ?_, ?_, x3, fun K attrs n => scenario_main K exactArith attrs n⟩⟩
  · rw [g1, p1, p2, binary32_lit_zero, binary32_lit_one, binary32_lit_half,
      binary32_lit_11_20, binary32_lit_11_10]
  · rw [g2]
    simp only [p1, p2, p3, p4, p5, p6, p7, p8]
    simp only [binary32_lit_zero, binary32_lit_one, binary32_lit_half,
      binary32_lit_11_20, binary32_lit_11_10, scenarioOutputs]
  · rw [x1]
    simp [scenarioStates, exactArith]
    norm_num
  · rw [x2]
    simp [scenarioOutputs, exactArith]
    norm_num

end Teleop
